import Mathlib

/-!
Verification of the pyisis (isis2mongo) record-store engine and formatting
language against its natural-language specification.

The development shallowly embeds the relevant Python code:

* `src/pyisis/records.py` — `XrfRecord` (decode / encode / decode_status /
  update / _write) and `MasterRecord.save` / `MasterRecord.read`;
* `src/pyisis/files.py` — `MasterFile._get_record_offset`, `__getitem__`,
  `delete`, `undelete`, `previous`;
* `src/pyisis/ast.py` — `break_line`, `get_last_line`, `LeafNode.format`,
  `InconditionalLiteral.eval`, `LineWidth.eval`, `NumFuncVal`, `NumFuncSeq`,
  `Sequence.eval` (restricted to the node kinds appearing in the claims);
* `src/pyisis/session.py` — the `format` wrapper that restores
  `MAX_LINE_WIDTH`.

Conventions used throughout the embedding:

* Machine integers are `Int`/`Nat`.  Python 2 `/` and `%` on integers are
  floor division / nonnegative remainder, i.e. `Int.ediv` / `Int.emod` for the
  positive divisors used by the code.
* Python bitwise `&` with the power-of-two masks used by the code is modelled
  through two's-complement arithmetic: bit `k` of an integer `v` is set iff
  `2^k ≤ v.emod (2^(k+1))`, and `a | b` for operands with disjoint bit ranges
  (a multiple of 2048 or-ed with a value in `[0, 2048)`) is addition.
* Byte strings are `List Nat`; text is `List Char`; file contents are total
  functions `Int → Nat` (Python zero-fills on writes past EOF).
* Exceptions are `Except String`.  A Python `raise` placed before any
  mutation leaves the object unchanged, which the `Except` model captures by
  not producing a new state.
* The embedding fixes the default configuration of `config.py`: block size
  512, little-endian, `LEADER_XL = True` (leader mask `<iHHiHHHH`, 20 bytes),
  directory mask `<HHH` (6 bytes), and non-extra-large XRF packing
  (`mftype ≤ 1`, so `extra_large = 0`).
-/

namespace Pyisis

/-! ## XRF entries (`records.py`, class `XrfRecord`) -/

/-- `XrfRecord.decode_status` (records.py:64-79): derive the status string
from a decoded `(block, offset)` pair.  Python initialises `status` to
`'active'` and overrides it through an `if`/`elif` chain. -/
def decodeStatus (block offset : Int) : String :=
  if block < 0 ∧ offset > 0 then "logically deleted"
  else if block = -1 ∧ offset = 0 then "physically deleted"
  else if block = 0 ∧ offset = 0 then "inexistent"
  else if block = 0 then "invalid"
  else "active"

/-- Bit `k` of the two's-complement representation of `v`; models Python's
`abs(v & (1 << k)) == (1 << k)` for an arbitrary (possibly negative) int. -/
def pyTestBit (v : Int) (k : Nat) : Bool :=
  decide (2 ^ k ≤ v.emod (2 ^ (k + 1)))

/-- One cross-reference entry.  `XrfRecord` stores
`block`, `offset`, `status`, `new_flag`, `modified_flag`; the `mfn` and the
configuration are kept outside the entry by the embedding. -/
structure XrfEntry where
  block : Int
  offset : Int
  status : String
  newFlag : Bool
  modFlag : Bool
  deriving Repr, DecidableEq

/-- `XrfRecord.decode` (records.py:108-123) specialised to `extra_large = 0`
(the non-extra-large branch, i.e. `mftype ≤ 1`):
`block = abs(value) / 2048`, `offset = abs(value) & 0x1FF`,
`new_flag = abs(value & 0x400) == 0x400`,
`modified_flag = abs(value & 0x200) == 0x200`. -/
def xrfDecode (value : Int) : Int × Int × Bool × Bool :=
  let a : Int := (value.natAbs : Int)
  (a.ediv 2048, a.emod 512, pyTestBit value 10, pyTestBit value 9)

/-- `XrfRecord.__init__` (records.py:82-94): decode a stored word and derive
the status from the decoded block and offset. -/
def xrfEntryOfWord (value : Int) : XrfEntry :=
  let d := xrfDecode value
  { block := d.1, offset := d.2.1, status := decodeStatus d.1 d.2.1,
    newFlag := d.2.2.1, modFlag := d.2.2.2 }

/-- `XrfRecord.encode` (records.py:126-150) specialised to `extra_large = 0`.
`(-1 * 2048) | 0 = -2048`; `self.offset & 0x1FF = offset.emod 512`; the final
`(block * 2048) | xrmfp` with `0 ≤ xrmfp < 2048` is addition, regardless of
the sign of `block`. -/
def xrfEncode (e : XrfEntry) : Int :=
  if e.status = "inexistent" then 0
  else if e.status = "physically deleted" then -2048
  else
    let xrmfp : Int := e.offset.emod 512
    let xrmfp := if e.newFlag then xrmfp + 1024 else xrmfp
    let xrmfp := if e.modFlag then xrmfp + 512 else xrmfp
    e.block * 2048 + xrmfp

/-- The word `XrfRecord._write` (records.py:152-166) stores for an entry:
the two's-complement negation `~encode() + 1 = -encode()` when the status is
`'logically deleted'`, otherwise `encode()` (`status*256 >> 8` is the
identity on the values involved). -/
def xrfWriteWord (e : XrfEntry) : Int :=
  if e.status = "logically deleted" then -(xrfEncode e) else xrfEncode e

/-- `XrfRecord.update` (records.py:96-106).  For `'active'` the entry is
repointed at `abs_mst_offset` (`divmod(abs_mst_offset, 512)` then
`block += 1`); for the four non-active statuses a `ValueError` is raised
before any attribute is assigned, so the entry is left unchanged (the
`.error` branch of the model produces no new entry); any other string would
fall through and only set `status` and the flags. -/
def xrfUpdate (e : XrfEntry) (absOffset : Int) (status : String)
    (n m : Bool) : Except String XrfEntry :=
  if status = "active" then
    .ok { block := absOffset.ediv 512 + 1, offset := absOffset.emod 512,
          status := status, newFlag := n, modFlag := m }
  else if status = "logically deleted" ∨ status = "physically deleted" ∨
      status = "invalid" ∨ status = "inexistent" then
    .error ("Invalid status " ++ status)
  else
    .ok { e with status := status, newFlag := n, modFlag := m }

/-! ## Splitter threshold (`MasterRecord.save`, records.py:468-476) -/

/-- `struct.calcsize` restricted to the mask alphabet used by the
configuration (`<`, `i`, `H`, `B`). -/
def calcsizeMask (mask : String) : Nat :=
  mask.toList.foldl
    (fun acc c =>
      acc + (if c = 'i' then 4 else if c = 'H' then 2 else
             if c = 'B' then 1 else 0)) 0

/-- The `MSNVSPLT` threshold chosen by `MasterRecord.save`
(records.py:471-474): 493 iff the directory mask is the string `'iii'`. -/
def splitThreshold (dirMask : String) : Int :=
  if dirMask = "iii" then 493 else 497

/-- Position adjustment of `MasterRecord.save` (records.py:468-476): when
`pos % 512` lies between the threshold and 511 the position is advanced to
the next block boundary `512 * (pos / 512 + 1)`. -/
def splitAdvance (dirMask : String) (pos : Int) : Int :=
  let testPos := pos.emod 512
  let endBlock := splitThreshold dirMask
  if endBlock ≤ testPos ∧ testPos ≤ 511 then 512 * (pos.ediv 512 + 1) else pos

/-! ## Session wrapper (`session.py`, function `format`) -/

/-- The configuration as observed by the formatter: the mutable
`MAX_LINE_WIDTH` plus all remaining fields, abstracted as `rest` (the source
scan shows `MAX_LINE_WIDTH` is the only configuration attribute assigned
during evaluation, at ast.py:582). -/
structure FmtConfig (α : Type) where
  maxLineWidth : Int
  rest : α
  deriving Repr, DecidableEq

/-- `session.format` (session.py:125-129) around an arbitrary formatter seen
as a configuration transformer: save `MAX_LINE_WIDTH`, run the formatter,
write the saved value back. -/
def sessionFormat {α β : Type} (formatter : FmtConfig α → FmtConfig α × β)
    (cfg : FmtConfig α) : FmtConfig α × β :=
  let lw := cfg.maxLineWidth
  let r := formatter cfg
  ({ r.1 with maxLineWidth := lw }, r.2)

/-- Effect of `LineWidth.eval` (ast.py:574-586) on the configuration:
`mst.config.MAX_LINE_WIDTH = n`, returning the empty string. -/
def lineWidthEffect {α : Type} (n : Int) (cfg : FmtConfig α) :
    FmtConfig α × String :=
  ({ cfg with maxLineWidth := n }, "")

/-! ## Python string primitives

Text is modelled as `List Char`.  The helpers below reproduce the exact
semantics of the Python `str` operations used by `ast.py`: `find`/`rfind`
return `-1` on failure, slices accept negative indices and clamp, `strip`
removes ASCII whitespace. -/

/-- Text, modelled as a list of characters. -/
abbrev Str := List Char

/-- Python whitespace, as stripped by `str.strip` / `str.rstrip`. -/
def isPySpace (c : Char) : Bool :=
  c = ' ' || c = '\t' || c = '\n' || c = '\r' || c = '\x0b' || c = '\x0c'

/-- `s.rstrip()`. -/
def pyRstrip (s : Str) : Str := (s.reverse.dropWhile isPySpace).reverse

/-- `s.strip()`. -/
def pyStrip (s : Str) : Str := pyRstrip (s.dropWhile isPySpace)

/-- `s[:j]` — Python slice with clamping and negative-index support. -/
def pySliceTo (s : Str) (j : Int) : Str :=
  if 0 ≤ j then s.take j.toNat else s.take ((s.length : Int) + j).toNat

/-- `s[i:]` — Python slice with clamping and negative-index support. -/
def pySliceFrom (s : Str) (i : Int) : Str :=
  if 0 ≤ i then s.drop i.toNat else s.drop ((s.length : Int) + i).toNat

/-- `s.find(c)` for a single character: first index, or `-1`. -/
def pyFindChar (s : Str) (c : Char) : Int :=
  match s.findIdx? (· = c) with
  | some i => (i : Int)
  | none => -1

/-- `s.rfind(c, 0, e)` for a single character: the greatest index `< min e
(len s)` holding `c`, or `-1`. -/
def pyRfindBefore (s : Str) (c : Char) (e : Nat) : Int :=
  (List.range (min e s.length)).foldl
    (fun acc i => if s.get? i = some c then (i : Int) else acc) (-1)

/-- `s.rfind(c)`. -/
def pyRfind (s : Str) (c : Char) : Int := pyRfindBefore s c s.length

/-- `s.find(sub)` — substring search, first index or `-1` (the empty
substring is found at index 0, as in Python). -/
def pyFindSub (s sub : Str) : Int :=
  match (List.range (s.length + 1)).find? (fun i => sub.isPrefixOf (s.drop i)) with
  | some i => (i : Int)
  | none => -1

/-! ## `break_line` (ast.py:2197-2229)

The Python function recurses on `rest = spaces + line[cut_pos+1:]`, which
need not shrink for a nonempty `spaces` prefix, so the embedding carries
explicit fuel; `breakLineRun` supplies fuel sufficient for the `spaces = ''`
call sites used by `LeafNode.format` and `InconditionalLiteral.eval`. -/

/-- The cut position chosen by `break_line` in its recursive branch
(ast.py:2211-2223): the last space within the window, moved left past a
double space, replaced by `max_width` when not positive, and by
`max_width - 1` when everything before it is blank.
The `try`/`except IndexError` around the double-space test is modelled by
the explicit bound check. -/
def breakCut (line : Str) (maxWidth : Int) : Int :=
  let c0 := pyRfindBefore line ' ' (maxWidth.toNat + 1)
  let c1 :=
    if (c0 + 1) < (line.length : Int) ∧ line.get? (c0 + 1).toNat = some ' ' then
      pyRfindBefore (pySliceTo line c0) ' ' (maxWidth.toNat + 1)
    else c0
  let c2 := if c1 ≤ 0 then maxWidth else c1
  if pyStrip (pySliceTo line c2) = [] then maxWidth - 1 else c2

/-- `break_line(line, max_width, spaces)` with explicit fuel. -/
def breakLineF : Nat → Str → Int → Str → List Str
  | 0, line, _, _ => [line]
  | fuel + 1, line, maxWidth, spaces =>
    if (line.length : Int) ≤ maxWidth ∨ maxWidth ≤ 0 then [line]
    else
      let cut := breakCut line maxWidth
      let piece := pySliceTo line (cut + 1)
      let rest := spaces ++ pySliceFrom line (cut + 1)
      piece :: (if rest ≠ [] then breakLineF fuel rest maxWidth spaces else [])

/-- `break_line(line, max_width)` with the default empty `spaces`. -/
def breakLineRun (line : Str) (maxWidth : Int) : List Str :=
  breakLineF (line.length + 1) line maxWidth []

/-! ## Evaluator state and mini-AST (ast.py)

The claims about the formatting engine involve only inconditional literals,
numbers, `lw(n)` and node sequences, so the embedded AST carries exactly
those constructors.  Class attributes that are constant in the reachable
runs (`LeafNode.proc_chain = False`, `LeafNode.ref_chain = False`,
`LeafNode.linesep = '\n'`) are inlined. -/

/-- The configuration fields read and written by the embedded evaluator. -/
structure EvalCfg where
  maxLineWidth : Int
  deriving Repr, DecidableEq

/-- The chain-level style state set up by `format_chain` (ast.py:2254-2255):
`chain.mode = 'p'`, `chain.case = 'l'`.  No node of the embedded subset
mutates it. -/
structure ChainSt where
  mode : Char
  caseC : Char
  deriving Repr, DecidableEq

/-- Mini-AST: the node kinds needed by the claims.
`numberN` is a `Number` leaf, `ilit` an `InconditionalLiteral`, `lw` the
`LineWidth` function node, `seqN` a `Sequence`. -/
inductive PNode where
  | numberN (n : Int)
  | ilit (s : Str)
  | lw (arg : PNode)
  | seqN (l : List PNode)
  deriving Repr

/-- A Python evaluation result: a text or an int (`Number.eval` returns the
raw int, which `Sequence.eval` skips and `unicode()` renders as digits). -/
inductive PyVal where
  | vstr (s : Str)
  | vint (n : Int)
  deriving Repr, DecidableEq

/-- `unicode(v)`. -/
def pyValToStr : PyVal → Str
  | .vstr s => s
  | .vint n => (toString n).toList

/-- `int(v)` as used by `LineWidth.eval` on its argument (identity on ints;
string arguments do not occur in the embedded chains and parse as a plain
signed decimal). -/
def pyValToInt : PyVal → Int
  | .vint n => n
  | .vstr s =>
    match s with
    | c :: r =>
      if c = '-' then -(r.foldl (fun a x => a * 10 + ((x.toNat : Int) - 48)) 0)
      else s.foldl (fun a x => a * 10 + ((x.toNat : Int) - 48)) 0
    | [] => 0

/-- `get_last_line` (ast.py:58-74): the text since the last line separator;
returns `''` when the last workarea item ends in the separator (the
`IndexError` for an empty last item is swallowed and falls through to the
join). -/
def getLastLine (workarea : List Str) : Str :=
  match workarea.getLast? with
  | none => []
  | some last =>
    if last.getLast? = some '\n' then []
    else
      let result := workarea.flatten
      pySliceFrom result (pyRfind result '\n' + 1)

/-- Greatest index of a non-space character, or `-1`; the backwards scan of
`Sequence.eval`'s `reset_last_spaces` handling (ast.py:158-165). -/
def lastNonSpaceIdx (s : Str) : Int :=
  (List.range s.length).foldl
    (fun acc i => if s.getD i ' ' ≠ ' ' then (i : Int) else acc) (-1)

/-- The `reset_last_spaces` truncation of `Sequence.eval` (ast.py:157-166):
replace the last workarea item `data` by `data[:idx]` where `idx` is the
last non-space position (no change when there is no non-space character or
the result list is empty — the `IndexError` is swallowed). -/
def stripResetLastSpaces (result : List Str) : List Str :=
  match result.getLast? with
  | none => result
  | some data =>
    let idx := lastNonSpaceIdx data
    if idx < 0 then result
    else result.dropLast ++ [pySliceTo data idx]

/-- `format_mode` (ast.py:98-107), used by `Sequence.eval` when
`chain.mode == 'D'`; unreachable in the embedded runs (mode is `'p'`).
Python raises `IndexError` on empty input; the model returns the
otherwise-appended two spaces. -/
def formatMode (result : Str) : Str :=
  let p : Str × Str :=
    if result.getLast? = some '\n' then (['\n'], result.dropLast) else ([], result)
  if 3 ≤ p.2.length ∧ (pyStrip p.2).getLast? ≠ some '.' then
    p.2 ++ ['.', ' ', ' '] ++ p.1
  else p.2 ++ [' ', ' ']

/-- `InconditionalLiteral.eval` (ast.py:2054-2136) with
`apply_format = True` and `LeafNode.proc_chain = False` (no `Proc` node in
the embedded subset).  Returns the produced text together with the
`reset_last_spaces` flag the node would carry afterwards.  `szvalue` is
`len(str(value))`, equal to `len(value)` for the ASCII literals involved. -/
def ilitEval (value0 : Str) (wa : List Str) (ch : ChainSt) (cfg : EvalCfg) :
    Str × Bool :=
  let value := if ch.caseC = 'U' then value0.map Char.toUpper else value0
  let lastline := getLastLine wa
  let maxWidth := cfg.maxLineWidth
  let szlastline := lastline.length
  let szvalue := value.length
  let lastWaItem := wa.getLast?
  -- if not szlastline and last_wa_item and last_wa_item not in (linesep,'') and ...
  let b1ok : Bool :=
    match lastWaItem with
    | some it =>
      decide (it ≠ [] ∧ it ≠ ['\n'] ∧
        pyFindChar it '\n' ≠ 0 ∧ pyFindChar it '\n' ≠ (it.length : Int) - 1 ∧
        it.count '\n' = 2)
    | none => false
  if szlastline = 0 ∧ b1ok = true then
    (match lastWaItem with
     | some it =>
       if maxWidth ≤ (it.length : Int) + szvalue then (['\n'] ++ value, false)
       else (value, false)
     | none => (value, false))
  -- elif last_wa_item not in ('\n','') and szlastline == 0:
  else if (lastWaItem ≠ some ['\n'] ∧ lastWaItem ≠ some []) ∧ szlastline = 0 then
    let result := wa.flatten
    if result ≠ [] then
      let p : Nat × Str :=
        if result.getLast? = some '\n' then (1, result.dropLast) else (0, result)
      let lastLine2 := pySliceFrom p.2 (pyRfind p.2 '\n' + 1)
      if 1 < lastLine2.length ∧
          maxWidth ≤ (lastLine2.length : Int) + szvalue + p.1 then
        (['\n'] ++ value, false)
      else (value, false)
    else (value, false)
  -- elif szlastline == max_width - 1 and szvalue == 2:
  else if (szlastline : Int) = maxWidth - 1 ∧ szvalue = 2 then
    (['\n'] ++ value, false)
  -- elif (not szlastline and szvalue < max_width) or (szlastline + szvalue == max_width and szvalue == 2):
  else if (szlastline = 0 ∧ (szvalue : Int) < maxWidth) ∨
      ((szlastline : Int) + szvalue = maxWidth ∧ szvalue = 2) then
    (value, false)
  -- elif szlastline + szvalue > max_width and max_width - szlastline < szvalue
  --      and last_wa_item != '\n' and szvalue < max_width - 1:
  else if maxWidth < (szlastline : Int) + szvalue ∧
      maxWidth - szlastline < (szvalue : Int) ∧
      lastWaItem ≠ some ['\n'] ∧ (szvalue : Int) < maxWidth - 1 then
    (['\n'] ++ value, false)
  -- elif szlastline + szvalue > max_width and lastline.find('\n') == -1 or szvalue > max_width:
  else if (maxWidth < (szlastline : Int) + szvalue ∧ pyFindChar lastline '\n' = -1) ∨
      maxWidth < (szvalue : Int) then
    let newPieces := breakLineRun (lastline ++ value) maxWidth
    if pyFindSub lastline (newPieces.headD []) = 0 then (['\n'] ++ value, false)
    else
      (List.intercalate ['\n']
        (((newPieces.headD []).drop szlastline) :: newPieces.tail), false)
  -- elif lastline:
  else if lastline ≠ [] then
    let tempLine := pyRstrip lastline
    let resetLS := tempLine = []
    let posNl := pyRfind tempLine '\n'
    let lastline1 := if posNl < 0 then lastline else pySliceFrom lastline posNl
    if (lastline1.length : Int) < maxWidth ∧
        maxWidth ≤ (lastline1.length : Int) + szvalue then
      (['\n'] ++ value, resetLS)
    else (value, resetLS)
  else (value, false)

/-- Whether a node is an `InconditionalLiteral` (for the
`isinstance(node, InconditionalLiteral)` test of `Sequence.eval`). -/
def isIlit : PNode → Bool
  | .ilit _ => true
  | _ => false

mutual

/-- Dispatch of `node.eval(...)` for the embedded node kinds.  Returns the
produced value, the (possibly mutated) configuration, and the
`reset_last_spaces` flag (only `InconditionalLiteral` sets it). -/
def nodeEval (n : PNode) (wa : List Str) (ch : ChainSt) (cfg : EvalCfg) :
    PyVal × EvalCfg × Bool :=
  match n with
  | .numberN k => (.vint k, cfg, false)
  | .ilit s =>
    let r := ilitEval s wa ch cfg
    (.vstr r.1, cfg, r.2)
  | .lw arg =>
    -- LineWidth.eval (ast.py:574-586): mst.config.MAX_LINE_WIDTH = int(arg.eval(...))
    let r := nodeEval arg wa ch cfg
    (.vstr [], { r.2.1 with maxLineWidth := pyValToInt r.1 }, false)
  | .seqN l =>
    let r := seqList l [] wa ch cfg
    -- result = ''.flatten(result); mode-'D' decoration (dead for mode 'p')
    let result := r.1.flatten
    let result :=
      if ch.mode = 'D' ∧ result ≠ ['\n'] then formatMode result else result
    (.vstr result, r.2, false)

/-- The node loop of `Sequence.eval` (ast.py:113-177) restricted to the
embedded node kinds (no `Mfn`/`Field`/`ConditionalLiteral`/
`RepeatableLiteral` nodes occur): evaluate each node against
`workarea + result`, apply the `reset_last_spaces` truncation for
inconditional literals, skip ints and empty strings, upper-case under
`chain.case == 'U'`, and accumulate. -/
def seqList (l : List PNode) (result : List Str) (wa : List Str)
    (ch : ChainSt) (cfg : EvalCfg) : List Str × EvalCfg :=
  match l with
  | [] => (result, cfg)
  | node :: rest =>
    let r := nodeEval node (wa ++ result) ch cfg
    let result :=
      if isIlit node && r.2.2 then stripResetLastSpaces result else result
    let result :=
      match r.1 with
      | .vint _ => result
      | .vstr s =>
        if s = [] then result
        else result ++ [if ch.caseC = 'U' then s.map Char.toUpper else s]
    seqList rest result wa ch r.2.1

end

/-! ## Numeric extraction (`NUMERIC_PATTERNS`, ast.py:2191-2195, and
`NumFuncVal.get_values`, ast.py:950-973)

`re.findall` scans left to right, at each position taking the longest match
of `[-+]?[0-9]*\.?[0-9]+([eE][-+]?[0-9]+)?` (first pattern) or
`0[xX][0-9a-fA-F]+[lL]?` (second pattern) and resuming after it. -/

/-- Length of the longest match of the decimal-number regex at the start of
`s`, if any: optional sign, then digits, an optional fractional part
requiring at least one digit somewhere, and an optional exponent. -/
def matchNumLen (s : Str) : Option Nat :=
  let p : Nat × Str :=
    match s with
    | c :: rest => if c = '+' ∨ c = '-' then (1, rest) else (0, s)
    | [] => (0, [])
  let d1 := (p.2.takeWhile Char.isDigit).length
  let r1 := p.2.drop d1
  let noDot : Option Nat := if 0 < d1 then some (p.1 + d1) else none
  let core : Option Nat :=
    match r1 with
    | c :: rest =>
      if c = '.' then
        let d2 := (rest.takeWhile Char.isDigit).length
        if 0 < d2 then some (p.1 + d1 + 1 + d2) else noDot
      else noDot
    | [] => noDot
  match core with
  | none => none
  | some n =>
    match s.drop n with
    | c :: rest =>
      if c = 'e' ∨ c = 'E' then
        let q : Nat × Str :=
          match rest with
          | c2 :: t => if c2 = '+' ∨ c2 = '-' then (1, t) else (0, rest)
          | [] => (0, rest)
        let d3 := (q.2.takeWhile Char.isDigit).length
        if 0 < d3 then some (n + 1 + q.1 + d3) else some n
      else some n
    | [] => some n

/-- Length of the longest match of the hex-number regex `0[xX]…` at the
start of `s`, if any. -/
def matchHexLen (s : Str) : Option Nat :=
  match s with
  | c0 :: x :: rest =>
    if c0 = '0' ∧ (x = 'x' ∨ x = 'X') then
      let d := (rest.takeWhile fun c =>
        c.isDigit || (decide ('a' ≤ c) && decide (c ≤ 'f')) ||
          (decide ('A' ≤ c) && decide (c ≤ 'F'))).length
      if 0 < d then
        match rest.drop d with
        | c :: _ => if c = 'l' ∨ c = 'L' then some (2 + d + 1) else some (2 + d)
        | [] => some (2 + d)
      else none
    else none
  | _ => none

/-- `pattern.findall(s)`: scan left to right, emitting each match and
resuming after it (all matches here have positive length). -/
def findallScan (matchLen : Str → Option Nat) : Nat → Str → List Str
  | 0, _ => []
  | _ + 1, [] => []
  | fuel + 1, s =>
    match matchLen s with
    | some n => s.take n :: findallScan matchLen fuel (s.drop n)
    | none => findallScan matchLen fuel (s.drop 1)

/-- All decimal-number matches in `s`. -/
def findallNum (s : Str) : List Str := findallScan matchNumLen s.length s

/-- All hex-number matches in `s`. -/
def findallHex (s : Str) : List Str := findallScan matchHexLen s.length s

/-- A Python number: its rational value and whether it is a `float`
(Python 2 distinguishes int and float for `/`).  Every value reached by the
claims is dyadic, so `ℚ` represents the involved floats exactly. -/
structure PyNum where
  isFloat : Bool
  val : ℚ
  deriving Repr, DecidableEq

/-- Value of a digit string. -/
def digitsVal (l : Str) : Nat := l.foldl (fun a c => a * 10 + (c.toNat - 48)) 0

/-- Python `eval` of a string matched by the decimal-number regex: a float
iff it contains `.`, `e` or `E`. -/
def pyEvalNum (s : Str) : PyNum :=
  let p : ℚ × Str :=
    match s with
    | c :: rest =>
      if c = '+' then (1, rest) else if c = '-' then (-1, rest) else (1, s)
    | [] => (1, s)
  let ds := p.2.takeWhile Char.isDigit
  let r1 := p.2.drop ds.length
  let m : ℚ × Str :=
    match r1 with
    | c :: rest =>
      if c = '.' then
        let fs := rest.takeWhile Char.isDigit
        ((digitsVal ds : ℚ) + (digitsVal fs : ℚ) / ((10 : ℚ) ^ fs.length),
          rest.drop fs.length)
      else ((digitsVal ds : ℚ), r1)
    | [] => ((digitsVal ds : ℚ), r1)
  let q : ℚ :=
    match m.2 with
    | c :: rest =>
      if c = 'e' ∨ c = 'E' then
        let g : Bool × Str :=
          match rest with
          | c2 :: t =>
            if c2 = '+' then (false, t)
            else if c2 = '-' then (true, t) else (false, rest)
          | [] => (false, rest)
        let es := digitsVal (g.2.takeWhile Char.isDigit)
        if g.1 then m.1 / (10 : ℚ) ^ es else m.1 * (10 : ℚ) ^ es
      else m.1
    | [] => m.1
  { isFloat := decide ('.' ∈ s) || decide ('e' ∈ s) || decide ('E' ∈ s),
    val := p.1 * q }

/-- `NumFuncVal.get_values` (ast.py:950-973).  The first pattern contributes
`eval` of each full match; the second pattern has a single group, so
`findall` returns plain strings and `eval(i[0])` evaluates the first
character of each match — always the digit `'0'`, hence the int `0`.  When
nothing matched, the result is the single int `0`. -/
def getValues (strvalue : Str) (getall : Bool) : List PyNum :=
  let m1 := findallNum strvalue
  let r1 : List PyNum :=
    if m1 ≠ [] then
      if getall then m1.map pyEvalNum else [pyEvalNum (m1.headD [])]
    else []
  let m2 := findallHex strvalue
  let r2 : List PyNum :=
    if m2 ≠ [] then
      if getall then m2.map fun _ => { isFloat := false, val := 0 }
      else [{ isFloat := false, val := 0 }]
    else []
  let results := r1 ++ r2
  if results = [] then [{ isFloat := false, val := 0 }] else results

/-- `NumFuncVal.eval` (ast.py:975-986): evaluate the parameter node, then
return the first extracted value. -/
def numFuncValEval (node : PNode) (wa : List Str) (ch : ChainSt)
    (cfg : EvalCfg) : PyNum :=
  let r := nodeEval node wa ch cfg
  (getValues (pyValToStr r.1) false).headD { isFloat := false, val := 0 }

mutual

/-- `NumFuncSeq.get_sequence` (ast.py:1064-1082) restricted to the embedded
node kinds: a `Number` node contributes its own value, a `Sequence` is
recursed into, and any other node is evaluated to a string put through
`get_values(…, getall=True)` (the `BoolFunc`/`Spacer` skip branches concern
node kinds absent from the subset).  The configuration is threaded through
the sequential evaluation. -/
def getSeqValues (node : PNode) (wa : List Str) (ch : ChainSt)
    (cfg : EvalCfg) : List PyNum × EvalCfg :=
  match node with
  | .numberN k => ([{ isFloat := false, val := (k : ℚ) }], cfg)
  | .seqN l => getSeqValuesList l wa ch cfg
  | n =>
    let r := nodeEval n wa ch cfg
    (getValues (pyValToStr r.1) true, r.2.1)

/-- `values.extend(self.get_sequence(subnode, …))` over the members of a
`Sequence` node, threading the configuration. -/
def getSeqValuesList (l : List PNode) (wa : List Str) (ch : ChainSt)
    (cfg : EvalCfg) : List PyNum × EvalCfg :=
  match l with
  | [] => ([], cfg)
  | sub :: rest =>
    let r := getSeqValues sub wa ch cfg
    let r2 := getSeqValuesList rest wa ch r.2
    (r.1 ++ r2.1, r2.2)

end

/-- Python `sum` (starts from the int `0`; the result is a float iff any
summand is). -/
def pySum (l : List PyNum) : PyNum :=
  l.foldl
    (fun acc x => { isFloat := acc.isFloat || x.isFloat, val := acc.val + x.val })
    { isFloat := false, val := 0 }

/-- Python `min` over a nonempty list: the first element of least value. -/
def pyListMin (l : List PyNum) : PyNum :=
  match l with
  | [] => { isFloat := false, val := 0 }
  | x :: rest => rest.foldl (fun acc y => if y.val < acc.val then y else acc) x

/-- Python `max` over a nonempty list: the first element of greatest value. -/
def pyListMax (l : List PyNum) : PyNum :=
  match l with
  | [] => { isFloat := false, val := 0 }
  | x :: rest => rest.foldl (fun acc y => if acc.val < y.val then y else acc) x

/-- `sum(values)/len(values)`: true division when the sum is a float, floor
division (Python 2 int `/`) otherwise. -/
def pyAvr (l : List PyNum) : PyNum :=
  let s := pySum l
  if s.isFloat then { isFloat := true, val := s.val / (l.length : ℚ) }
  else { isFloat := false, val := ((s.val / (l.length : ℚ)).floor : ℚ) }

/-- `NumFuncSeq.eval` (ast.py:1084-1103): collect the values of the
parameter tree (none of which is a string here, so the string filter is the
identity), return `''` (modelled `none`) on an empty collection, else apply
the aggregator. -/
def numFuncSeqEval (func : String) (node : PNode) (wa : List Str)
    (ch : ChainSt) (cfg : EvalCfg) : Option PyNum :=
  let values := (getSeqValues node wa ch cfg).1
  if values = [] then none
  else if func = "RSUM" then some (pySum values)
  else if func = "RMAX" then some (pyListMax values)
  else if func = "RMIN" then some (pyListMin values)
  else if func = "RAVR" then some (pyAvr values)
  else none

/-! ## Leaf emission (`LeafNode.format`, ast.py:270-326, and
`format_chain`, ast.py:2232-2268) -/

/-- The `new_pieces` emission of `LeafNode.format` (ast.py:307-312 and
318-324): append each broken piece, the first one shortened by the length of
the last line already present, with the separator between pieces but not
after the last one. -/
def appendBrokenPieces (ps : List Str) (szl : Nat) : List Str :=
  match ps with
  | [] => []
  | w :: rest => (w.drop szl) :: rest.flatMap (fun v => [['\n'], v])

/-- The piece loop of `LeafNode.format` (ast.py:295-312): a piece short
enough (`≤ max_width + 1`) is appended — shortened by the last-line length
only for the first piece — followed by the separator except after the last
piece; a longer piece is re-broken by `break_line` and emitted through
`appendBrokenPieces` (the source appends no separator after that branch). -/
def leafPiecesLoop : List Str → Nat → Nat → Int → Nat → List Str
  | [], _, _, _, _ => []
  | piece :: rest, idx, total, maxWidth, szlast =>
    (if (piece.length : Int) ≤ maxWidth + 1 then
      (piece.drop (if idx ≠ 0 then 0 else szlast)) ::
        (if idx < total - 1 then [['\n']] else [])
    else
      appendBrokenPieces (breakLineRun piece maxWidth) szlast) ++
      leafPiecesLoop rest (idx + 1) total maxWidth szlast

/-- `LeafNode.format` (ast.py:270-326): evaluate the node, then append its
text to the workarea under the line-break discipline with
`max_width = MAX_LINE_WIDTH - 1` (read after the evaluation, so an `lw(n)`
argument takes effect immediately).  Returns the extended workarea and the
configuration. -/
def leafFormat (node : PNode) (wa : List Str) (ch : ChainSt) (cfg : EvalCfg) :
    List Str × EvalCfg :=
  let lastline := getLastLine wa
  let r := nodeEval node wa ch cfg
  let value := pyValToStr r.1
  let cfg1 := r.2.1
  let current := lastline ++ value
  let maxWidth := cfg1.maxLineWidth - 1
  if 0 ≤ pyFindChar current '\n' then
    let p : Str × Bool :=
      if current.getLast? = some '\n' then (current.dropLast, true)
      else (current, false)
    let pieces := p.1.splitOn '\n'
    let wa2 := wa ++ leafPiecesLoop pieces 0 pieces.length maxWidth lastline.length
    ((if p.2 then wa2 ++ [['\n']] else wa2), cfg1)
  else
    if maxWidth < (current.length : Int) then
      (wa ++ appendBrokenPieces (breakLineRun current maxWidth) lastline.length,
        cfg1)
    else (wa ++ [value], cfg1)

/-- `format_chain` (ast.py:2232-2268) for a chain of leaf nodes: style state
`mode = 'p'`, `case = 'l'`, empty workarea, each node appends through its
`format` method (`sweepRepeatableLiteral` is the identity on chains without
repeatable or conditional literals); the output is the joined workarea. -/
def formatChain (chain : List PNode) (cfg : EvalCfg) : Str × EvalCfg :=
  let ch : ChainSt := { mode := 'p', caseC := 'l' }
  let r := chain.foldl (fun acc node => leafFormat node acc.1 ch acc.2)
    (([] : List Str), cfg)
  (r.1.flatten, r.2)

/-- A line satisfies the C9 invariant for width `w` when it fits in `w`
characters or is a single word without spaces (the claim's only
exception). -/
def lineOkC9 (w : Int) (l : Str) : Bool :=
  decide ((l.length : Int) ≤ w) || !(l.contains ' ')

/-- The parse of the four-literal argument `'a','1.5','b','2.0'`
(`paramfmt`, parser.py:56-62, merging the inconditional literals into one
`Sequence`). -/
def fourLitConcat : PNode :=
  .seqN [.ilit ['a'], .ilit ['1', '.', '5'], .ilit ['b'], .ilit ['2', '.', '0']]

/-- The default chain style state (`mode = 'p'`, `case = 'l'`). -/
def chainDefault : ChainSt := { mode := 'p', caseC := 'l' }

/-! ## Master store, byte level (`records.py`, `files.py`)

Byte strings are `List Nat`, file contents total functions `Int → Nat`
(Python zero-fills gaps when writing past the end of the file).  `struct`
packing follows the default little-endian masks: leader `<iHHiHHHH`
(20 bytes, `LEADER_XL`), directory `<HHH` (6 bytes), control `<iiiHBBiiii`
(32 bytes plus 32 padding bytes).  `struct.pack` raises on out-of-range
values; the embedding packs modulo the field width and the round-trip
theorems carry the corresponding range hypotheses.  Field data is kept as
the encoded byte string: `save` encodes with the same codec
(`INPUT_ENCODING`) that `read` decodes with, so the codec is the
identity of the byte level. -/

/-- A byte string. -/
abbrev Bytes := List Nat

/-- A file, byte-addressed. -/
abbrev Store := Int → Nat

/-- `struct.pack('<H', v)` (modulo 2^16; Python raises out of range). -/
def packH (v : Int) : Bytes :=
  [(v.emod 65536).toNat % 256, (v.emod 65536).toNat / 256]

/-- `struct.pack('<i', v)` (modulo 2^32; Python raises out of range). -/
def packI (v : Int) : Bytes :=
  [(v.emod 4294967296).toNat % 256, (v.emod 4294967296).toNat / 256 % 256,
   (v.emod 4294967296).toNat / 65536 % 256,
   (v.emod 4294967296).toNat / 16777216 % 256]

/-- `struct.unpack('<H', …)` at byte offset `i`. -/
def u16At (b : Bytes) (i : Nat) : Nat := b.getD i 0 + 256 * b.getD (i + 1) 0

/-- The unsigned 32-bit value at byte offset `i`. -/
def u32At (b : Bytes) (i : Nat) : Nat :=
  b.getD i 0 + 256 * b.getD (i + 1) 0 + 65536 * b.getD (i + 2) 0 +
    16777216 * b.getD (i + 3) 0

/-- `struct.unpack('<i', …)` at byte offset `i` (two's complement). -/
def i32At (b : Bytes) (i : Nat) : Int :=
  if u32At b i < 2147483648 then (u32At b i : Int)
  else (u32At b i : Int) - 4294967296

/-- Overwrite `l.length` bytes of `f` starting at `pos`. -/
def writeBytes (f : Store) (pos : Int) (l : Bytes) : Store :=
  fun i => if pos ≤ i ∧ i < pos + l.length then l.getD (i - pos).toNat 0 else f i

/-- Read `n` bytes of `f` starting at `pos`. -/
def readBytes (f : Store) (pos : Int) (n : Nat) : Bytes :=
  (List.range n).map fun k : Nat => f (pos + k)

/-- An in-memory `MasterRecord`: the dictionary is an association list in
key order, one entry per tag holding the ordered occurrence data (a single
`MasterField` is a one-element list, a `MasterContainerField` keeps its
elements in order). -/
structure MemRecord where
  mfn : Int
  mfbwb : Int
  mfbwp : Int
  fields : List (Nat × List Bytes)
  deriving Repr, DecidableEq

/-- `MasterRecord.get_fields`: the flattened field sequence, containers
expanded in order. -/
def flattenFields (fs : List (Nat × List Bytes)) : List (Nat × Bytes) :=
  fs.flatMap fun e => e.2.map fun d => (e.1, d)

/-- Total encoded length of the field data. -/
def totalDataLen (fields : List (Nat × Bytes)) : Nat :=
  (fields.map fun e => e.2.length).sum

/-- The directory entries written by `MasterRecord.save`
(records.py:448-458): one `<HHH` triple `(tag, relative_offset, length)` per
flattened field, offsets accumulating the encoded lengths. -/
def dirBytes (fields : List (Nat × Bytes)) (off : Nat) : Bytes :=
  match fields with
  | [] => []
  | (t, d) :: rest =>
    packH (t : Int) ++ packH (off : Int) ++ packH (d.length : Int) ++
      dirBytes rest (off + d.length)

/-- The serialised record written by `MasterRecord.save`
(records.py:440-461): leader `<iHHiHHHH` of
`(mfn, mfrl, 1, mfbwb, mfbwp, base, nvf, 0)` — the status is always written
`ACTIVE` — followed by the directory and the concatenated encoded field
data. -/
def recordBytes (mfn mfrl mfbwb mfbwp base nvf : Int)
    (fields : List (Nat × Bytes)) : Bytes :=
  packI mfn ++ packH mfrl ++ packH 1 ++ packI mfbwb ++ packH mfbwp ++
    packH base ++ packH nvf ++ packH 0 ++ dirBytes fields 0 ++
    fields.flatMap (·.2)

/-- The state of an open `MasterFile` together with its `XrfCache`: the
master file bytes and size, the control fields, the cache of decoded XRF
entries, and the words stored in the `.xrf` file (keyed by MFN — the slot
position `XrfRecord._get_record_offset` computes is injective in the
MFN). -/
structure MFState where
  mst : Store
  fsize : Int
  nxtmfn : Int
  nxtmfb : Int
  nxtmfp : Int
  mftype : Int
  reccnt : Int
  mfcxx1 : Int
  mfcxx2 : Int
  mfcxx3 : Int
  xrf : Int → XrfEntry
  xrfFile : Int → Int

/-- The control header bytes written by `MasterFile._write_control`
(files.py:397-413): `<iiiHBBiiii` of
`(ctlmfn=0, nxtmfn, nxtmfb, nxtmfp, 0, mftype, reccnt, mfcxx1..3)` plus
32 padding zero bytes, 64 bytes in total. -/
def ctrlBytes (st : MFState) : Bytes :=
  packI 0 ++ packI st.nxtmfn ++ packI st.nxtmfb ++ packH st.nxtmfp ++
    [0, (st.mftype.emod 256).toNat] ++ packI st.reccnt ++ packI st.mfcxx1 ++
    packI st.mfcxx2 ++ packI st.mfcxx3 ++ List.replicate 32 0

/-- `MasterFile._write_control`: write the control header at offset 0. -/
def writeControl (st : MFState) : Store := writeBytes st.mst 0 (ctrlBytes st)

/-- `MasterFile._get_record_offset` (files.py:473-490): the status from the
XRF cache and the byte position of the record (`(block-1) << 9 + offset`,
with `abs(block)` for logically deleted entries; inexistent and physically
deleted records point at the current tail `(nxtmfb-1) << 9 + nxtmfp`);
`invalid` raises, and any other status string would raise `NameError`
(`block` unbound). -/
def getRecordOffset (st : MFState) (mfn : Int) : Except String (String × Int) :=
  let e := st.xrf mfn
  if e.status = "active" then
    .ok ("active", (e.block - 1) * 512 + e.offset)
  else if e.status = "logically deleted" then
    .ok ("logically deleted", ((e.block.natAbs : Int) - 1) * 512 + e.offset)
  else if e.status = "inexistent" ∨ e.status = "physically deleted" then
    .ok (e.status, (st.nxtmfb - 1) * 512 + st.nxtmfp)
  else if e.status = "invalid" then
    .error "Not implemented xrf handling of invalid records."
  else .error "NameError: block"

/-- The directory triples `(tag, offset, length)` unpacked by
`MasterRecord.read` (records.py:549-558 and 575-582): `nvf` consecutive
`<HHH>` entries. -/
def parsePairs (dirData rawData : Bytes) (nvf : Nat) : List (Nat × Bytes) :=
  match nvf with
  | 0 => []
  | n + 1 =>
    (u16At dirData 0 % 65536,
      (rawData.drop (u16At dirData 2)).take (u16At dirData 4)) ::
      parsePairs (dirData.drop 6) rawData n

/-- `itertools.groupby` over the `(tag, value)` pairs as used by
`assemble_record` (records.py:587-600): adjacent pairs with equal tags are
collected into one entry (a container for two or more occurrences). -/
def groupPairs (pairs : List (Nat × Bytes)) : List (Nat × List Bytes) :=
  match pairs with
  | [] => []
  | (t, d) :: rest =>
    match groupPairs rest with
    | [] => [(t, [d])]
    | (t2, ds) :: gs =>
      if t = t2 then (t, d :: ds) :: gs else (t, [d]) :: (t2, ds) :: gs

/-- The record materialised by `MasterRecord.read`: every leader field it
extracts plus the grouped field map. -/
structure ReadRec where
  mfn : Int
  mfrl : Nat
  mfbwb : Int
  mfbwp : Nat
  base : Nat
  nvf : Nat
  status : Nat
  fields : List (Nat × List Bytes)
  deriving Repr, DecidableEq

/-- `MasterRecord.read` / `_read_leader` (records.py:509-600) from position
`pos`: unpack the `<iHHiHHHH` leader, assert
`base ≠ 0 ∧ base = LEADER_SIZE + DIR_SIZE*nvf`, read `mfrl - LEADER_SIZE`
further bytes, split them into the directory and the data region, build the
`(tag & 0xffff, data-slice)` pairs and group them.  Reads are within the
written extent of the file in every theorem below (Python would return
short data past EOF). -/
def parseRecord (f : Store) (pos : Int) : Except String ReadRec :=
  let leader := readBytes f pos 20
  let mfrl := u16At leader 4
  let base := u16At leader 14
  let nvf := u16At leader 16
  if base ≠ 0 ∧ base = 20 + 6 * nvf then
    let dirPlusData := readBytes f (pos + 20) (mfrl - 20)
    let pairs := parsePairs (dirPlusData.take (6 * nvf))
      (dirPlusData.drop (6 * nvf)) nvf
    .ok { mfn := i32At leader 0, mfrl := mfrl, mfbwb := i32At leader 8,
          mfbwp := u16At leader 12, base := base, nvf := nvf,
          status := u16At leader 18, fields := groupPairs pairs }
  else .error "base mismatch"

/-- `MasterFile.__getitem__` (files.py:493-544) for an integer MFN: read the
record for an `active`/`logically deleted` entry (the record's `mfn` and
`status` come from the leader), an empty record for `physically deleted`,
`None` for `invalid`/`inexistent`. -/
def fetchRecord (st : MFState) (mfn : Int) : Except String (Option ReadRec) := do
  let r ← getRecordOffset st mfn
  if r.1 = "active" ∨ r.1 = "logically deleted" then
    let p ← parseRecord st.mst r.2
    pure (some p)
  else if r.1 = "physically deleted" then
    pure (some { mfn := mfn, mfrl := 0, mfbwb := 0, mfbwp := 0, base := 0,
                 nvf := 0, status := 2, fields := [] })
  else pure none

/-- `MasterFile.delete` (files.py:561-578): requires status `active`; patch
the leader status word (offset `calcsize('<iHHiHHH') = 18`) to
`LOGICALLY_DELETED = 1`, set the cached entry's status and store its word
(negated by `_write` for the deleted status). -/
def deleteRec (st : MFState) (mfn : Int) : Except String MFState := do
  let r ← getRecordOffset st mfn
  if r.1 ≠ "active" then
    throw ("Asked to delete record flagged as " ++ r.1)
  else
    let e1 := { st.xrf mfn with status := "logically deleted" }
    pure { st with
      mst := writeBytes st.mst (r.2 + 18) (packH 1),
      xrf := fun k => if k = mfn then e1 else st.xrf k,
      xrfFile := fun k => if k = mfn then xrfWriteWord e1 else st.xrfFile k }

/-- `MasterFile.undelete` (files.py:580-597): requires status
`logically deleted`; patch the leader status word to `ACTIVE = 0`, set the
cached entry's status and store its word. -/
def undeleteRec (st : MFState) (mfn : Int) : Except String MFState := do
  let r ← getRecordOffset st mfn
  if r.1 ≠ "logically deleted" then
    throw ("Asked to undelete record flagged as " ++ r.1)
  else
    let e1 := { st.xrf mfn with status := "active" }
    pure { st with
      mst := writeBytes st.mst (r.2 + 18) (packH 0),
      xrf := fun k => if k = mfn then e1 else st.xrf k,
      xrfFile := fun k => if k = mfn then xrfWriteWord e1 else st.xrfFile k }

/-- `MasterFile.previous` (files.py:599-611): `None` when both back
pointers are zero, otherwise the record read at
`(mfbwb-1)*512 + mfbwp`. -/
def previousRec (st : MFState) (rec : MemRecord) :
    Except String (Option ReadRec) :=
  if rec.mfbwb = 0 ∧ rec.mfbwp = 0 then .ok none
  else do
    let p ← parseRecord st.mst ((rec.mfbwb - 1) * 512 + rec.mfbwp)
    pure (some p)

/-- The result of `MasterRecord.save`: the new file state, the mutated
record (`mfn`, `mfbwb`, `mfbwp` are assigned by `save`), and the position
the record bytes were written at. -/
structure SaveOut where
  st : MFState
  mrec : MemRecord
  wpos : Int

/-- The unconditional tail of `MasterRecord.save` (records.py:433-506):
serialise the record, apply the splitter adjustment, extend the file by one
zero block when the record would reach past the current size, write the
record bytes, recompute `(nxtmfb, nxtmfp)` from the end position, persist
the control header, and repoint the XRF entry at the written position with
status `active` and the computed flags. -/
def saveTail (st : MFState) (rec : MemRecord) (mfn : Int)
    (newFlag modifiedFlag : Bool) (mfbwb mfbwp pos0 : Int) : SaveOut :=
  let fields := flattenFields rec.fields
  let base : Int := 20 + 6 * (fields.length : Int)
  let mfrl : Int := 20 + 6 * (fields.length : Int) + (totalDataLen fields : Int)
  let record := recordBytes mfn mfrl mfbwb mfbwp base (fields.length : Int) fields
  let pos := splitAdvance "<HHH" pos0
  let needExt : Bool := decide (st.fsize ≤ (record.length : Int) + pos)
  let mst1 := if needExt then writeBytes st.mst st.fsize (List.replicate 512 0)
    else st.mst
  let fsize1 := if needExt then st.fsize + 512 else st.fsize
  let mst2 := writeBytes mst1 pos record
  let fsize2 := max fsize1 (pos + (record.length : Int))
  let tell := pos + (record.length : Int)
  let nxtmfb1 := tell.ediv 512 + 1
  let off := tell.emod 512
  let st1 : MFState :=
    { st with
      mst := mst2
      fsize := fsize2
      nxtmfb := nxtmfb1
      nxtmfp := (if off = 0 then 1 else off) }
  let e1 :=
    match xrfUpdate (st.xrf mfn) pos "active" newFlag modifiedFlag with
    | .ok v => v
    | .error _ => st.xrf mfn    -- unreachable: 'active' never raises
  { st := { st1 with
      mst := writeControl st1,
      xrf := fun k => if k = mfn then e1 else st.xrf k,
      xrfFile := fun k => if k = mfn then xrfWriteWord e1 else st.xrfFile k },
    mrec := { rec with mfn := mfn, mfbwb := mfbwb, mfbwp := mfbwp },
    wpos := pos }

/-- `MasterRecord.save` (records.py:357-506), branch part: assign
`mfn = nxtmfn` to a fresh record; consult the XRF status.  A new record
(`inexistent`/`physically deleted`) gets `new_flag`, zero back pointers and
`nxtmfn + 1`.  An update consults the current entry: `reset_flags` clears
both flags and the back pointers; a set `new_flag` keeps the record new and
clears the back pointers; otherwise the record is `modified` and, when its
`mfbwb` is zero, the back pointers are set to the old position's
`(block, offset)`.  An update additionally patches the old leader status to
`LOGICALLY_DELETED` when the old status was `active`, and (except under
`reset_flags`) redirects the write position to `nxtmfb*512 + nxtmfp`. -/
def saveRecord (st : MFState) (rec : MemRecord) (resetFlags : Bool) :
    Except String SaveOut := do
  let mfn := if rec.mfn = 0 then st.nxtmfn else rec.mfn
  let r ← getRecordOffset st mfn
  let status := r.1
  let pos := r.2
  if status = "inexistent" ∨ status = "physically deleted" then
    pure (saveTail { st with nxtmfn := st.nxtmfn + 1 } rec mfn true false 0 0 pos)
  else if status = "logically deleted" ∨ status = "active" then
    let xrfstat := st.xrf mfn
    let p : Bool × Bool × Int × Int :=
      if resetFlags then (false, false, 0, 0)
      else if xrfstat.newFlag then (true, false, 0, 0)
      else if rec.mfbwb ≠ 0 then (false, true, rec.mfbwb, rec.mfbwp)
      else (false, true, pos.ediv 512 + 1, pos.emod 512)
    let st1 := if status = "active" then
        { st with mst := writeBytes st.mst (pos + 18) (packH 1) }
      else st
    let pos1 := if ¬ resetFlags then st.nxtmfb * 512 + st.nxtmfp else pos
    pure (saveTail st1 rec mfn p.1 p.2.1 p.2.2.1 p.2.2.2 pos1)
  else if status = "invalid" then
    -- unreachable: `_get_record_offset` already raises for `invalid`
    throw "Tried to save record flagged as invalid."
  else throw "unknown status"

/-- A freshly created master file (files.py:339-363): one zero block, the
control header `(0, 1, 1, 64, 0, 0, 0, 0, 0, 0)` written at offset 0, and
an `.xrf` file holding one empty block (every word 0, so every cached entry
decodes to `inexistent`). -/
def newMasterFile : MFState :=
  let st0 : MFState :=
    { mst := fun _ => 0, fsize := 512, nxtmfn := 1, nxtmfb := 1, nxtmfp := 64,
      mftype := 0, reccnt := 0, mfcxx1 := 0, mfcxx2 := 0, mfcxx3 := 0,
      xrf := fun _ => xrfEntryOfWord 0, xrfFile := fun _ => 0 }
  { st0 with mst := writeControl st0 }

/-- The demonstration record for the save scenarios: a fresh record with a
single field `10 = "A"` (byte 65). -/
def c4Rec : MemRecord := { mfn := 0, mfbwb := 0, mfbwp := 0, fields := [(10, [[65]])] }

/-- `save(R); save(R')` on a fresh database with `reset_flags = false`
both times. -/
def saveTwice : Except String SaveOut := do
  let o1 ← saveRecord newMasterFile c4Rec false
  saveRecord o1.st o1.mrec false

/-- `save(R); save(R, reset_flags=True); save(R)` on a fresh database: the
middle save clears the stored `new_flag`, so the third save takes the
`modified` branch. -/
def saveThrice : Except String SaveOut := do
  let o1 ← saveRecord newMasterFile c4Rec false
  let o2 ← saveRecord o1.st o1.mrec true
  saveRecord o2.st o2.mrec false

/-- Every part of a read record except the leader status word: the
delete/undelete round trip restores the status and must leave these
unchanged. -/
def readProj (r : ReadRec) :
    Int × Nat × Int × Nat × Nat × Nat × List (Nat × List Bytes) :=
  (r.mfn, r.mfrl, r.mfbwb, r.mfbwp, r.base, r.nvf, r.fields)

/-- The result of one save of the demonstration record on a fresh
database. -/
def demoSaveOut : SaveOut :=
  match saveRecord newMasterFile c4Rec false with
  | .ok o => o
  | .error _ => { st := newMasterFile, mrec := c4Rec, wpos := 0 }

/-- A state whose MFN 1 is an active record: the demonstration database
after one save. -/
def demoActiveState : MFState :=
  match saveRecord newMasterFile c4Rec false with
  | .ok o => o.st
  | .error _ => newMasterFile

end Pyisis

namespace Pyisis

/-! ## C5 — derived XRF status -/

/-- C5: for every decoded `(block, offset)` pair, `decode_status` yields
`active` when `block > 0`; `logically deleted` when `block < 0 ∧ offset > 0`;
`physically deleted` when `block = -1 ∧ offset = 0`; `inexistent` when
`block = 0 ∧ offset = 0`; and `invalid` for any other pair with
`block = 0`. -/
theorem decodeStatus_cases (block offset : Int) :
    (0 < block → decodeStatus block offset = "active") ∧
    (block < 0 ∧ 0 < offset → decodeStatus block offset = "logically deleted") ∧
    (block = -1 ∧ offset = 0 → decodeStatus block offset = "physically deleted") ∧
    (block = 0 ∧ offset = 0 → decodeStatus block offset = "inexistent") ∧
    (block = 0 ∧ offset ≠ 0 → decodeStatus block offset = "invalid") := by
  refine ⟨?_, ?_, ?_, ?_, ?_⟩ <;> intro h <;>
    simp only [decodeStatus] <;> split_ifs with h1 h2 h3 h4 <;>
    first
      | rfl
      | omega

/-- Witness for C5: the five cases of `decodeStatus_cases` instantiated at
concrete pairs. -/
theorem decodeStatus_cases_witness :
    ((0 : Int) < 3 ∧ decodeStatus 3 7 = "active") ∧
    (((-2 : Int) < 0 ∧ (0 : Int) < 5) ∧ decodeStatus (-2) 5 = "logically deleted") ∧
    (decodeStatus (-1) 0 = "physically deleted") ∧
    (decodeStatus 0 0 = "inexistent") ∧
    (decodeStatus 0 9 = "invalid") :=
  ⟨⟨by decide, (decodeStatus_cases 3 7).1 (by decide)⟩,
   ⟨⟨by decide, by decide⟩, (decodeStatus_cases (-2) 5).2.1 ⟨by decide, by decide⟩⟩,
   (decodeStatus_cases (-1) 0).2.2.1 ⟨rfl, rfl⟩,
   (decodeStatus_cases 0 0).2.2.2.1 ⟨rfl, rfl⟩,
   (decodeStatus_cases 0 9).2.2.2.2 ⟨rfl, by decide⟩⟩

/-! ## C3 — XRF decode/encode round trip -/

/-- C3 (code bug): the word stored for a logically deleted record is
negative, and decoding it followed by re-encoding does **not** return the
original word.  Concretely: a record saved at absolute offset 64 (block 1,
offset 64, `new_flag` set) and then deleted has the stored word `-3136`;
`XrfRecord.decode` takes `abs(value)` for the block, so the entry decodes
with a positive block (status `'active'`, both flags corrupted) and
re-encodes to `2624 ≠ -3136`.  The `block < 0` branch of `decode_status` is
unreachable from the non-extra-large decoder. -/
theorem xrf_decode_encode_fails_on_deleted_word :
    xrfWriteWord { block := 1, offset := 64, status := "logically deleted",
                   newFlag := true, modFlag := false } = -3136 ∧
    xrfEntryOfWord (-3136) =
      { block := 1, offset := 64, status := "active",
        newFlag := false, modFlag := true } ∧
    xrfEncode (xrfEntryOfWord (-3136)) = 2624 ∧ (2624 : Int) ≠ -3136 := by
  refine ⟨by decide, by decide, by decide, by decide⟩

/-! ## C10 — `XrfRecord.update` -/

/-- C10: `update` accepts only the status `'active'`: each of the four other
statuses raises `ValueError('Invalid status …')` before any attribute is
assigned (so block, offset, status and both flags are unchanged — the model
returns `.error` without producing a new entry), while `'active'` sets
`block = abs_offset / 512 + 1` and `offset = abs_offset % 512` and stores the
flags. -/
theorem xrfUpdate_active_only (e : XrfEntry) (absOffset : Int) (n m : Bool) :
    xrfUpdate e absOffset "logically deleted" n m =
      .error "Invalid status logically deleted" ∧
    xrfUpdate e absOffset "physically deleted" n m =
      .error "Invalid status physically deleted" ∧
    xrfUpdate e absOffset "invalid" n m = .error "Invalid status invalid" ∧
    xrfUpdate e absOffset "inexistent" n m =
      .error "Invalid status inexistent" ∧
    xrfUpdate e absOffset "active" n m =
      .ok { block := absOffset.ediv 512 + 1, offset := absOffset.emod 512,
            status := "active", newFlag := n, modFlag := m } := by
  refine ⟨?_, ?_, ?_, ?_, ?_⟩ <;> simp [xrfUpdate]

/-! ## C6 — splitter threshold -/

/-- C6 (counterexample): the claim says the threshold is 493 when the
directory stride is 6 bytes.  The default mask `"<HHH"` has stride 6, and at
position 1005 (offset 493 within its block) the claim demands an advance to
1024, but `save` compares the mask against the string `'iii'` and therefore
uses threshold 497, leaving the position unchanged. -/
theorem splitAdvance_not_493_for_stride6 :
    calcsizeMask "<HHH" = 6 ∧ (1005 : Int).emod 512 = 493 ∧
    splitAdvance "<HHH" 1005 = 1005 ∧
    (1005 : Int) ≠ 512 * ((1005 : Int).ediv 512 + 1) := by
  refine ⟨by decide, by decide, by decide, by decide⟩

/-- C6 (amended): the threshold is 493 exactly when the directory mask is the
string `'iii'` (stride 12), and 497 otherwise — in particular for the
default 6-byte mask `"<HHH"`; in either case a block offset at or above the
threshold advances the position to the next block boundary and an offset
below it leaves the position unchanged. -/
theorem splitAdvance_threshold (dirMask : String) (pos : Int) :
    (dirMask = "iii" →
      calcsizeMask dirMask = 12 ∧
      (493 ≤ pos.emod 512 → splitAdvance dirMask pos = 512 * (pos.ediv 512 + 1)) ∧
      (pos.emod 512 < 493 → splitAdvance dirMask pos = pos)) ∧
    (dirMask ≠ "iii" →
      (497 ≤ pos.emod 512 → splitAdvance dirMask pos = 512 * (pos.ediv 512 + 1)) ∧
      (pos.emod 512 < 497 → splitAdvance dirMask pos = pos)) := by
  have hlt : pos.emod 512 < 512 := Int.emod_lt_of_pos pos (by decide)
  constructor
  · rintro rfl
    refine ⟨by decide, ?_, ?_⟩ <;> intro h <;>
      simp only [splitAdvance, splitThreshold, if_pos rfl] <;>
      split_ifs with hif <;> first | rfl | omega
  · intro hne
    refine ⟨?_, ?_⟩ <;> intro h <;>
      simp only [splitAdvance, splitThreshold, if_neg hne] <;>
      split_ifs with hif <;> first | rfl | omega

/-- Witness for C6 (amended): both mask cases at concrete positions —
`'iii'` advances 1005 (offset 493) to 1024, while the default `"<HHH"`
leaves 1005 unchanged and advances 1012 (offset 500) to 1024. -/
theorem splitAdvance_threshold_witness :
    ((493 : Int) ≤ (1005 : Int).emod 512 ∧
      splitAdvance "iii" 1005 = 512 * ((1005 : Int).ediv 512 + 1)) ∧
    ((1005 : Int).emod 512 < 497 ∧ splitAdvance "<HHH" 1005 = 1005) ∧
    ((497 : Int) ≤ (1012 : Int).emod 512 ∧
      splitAdvance "<HHH" 1012 = 512 * ((1012 : Int).ediv 512 + 1)) :=
  ⟨⟨by decide, ((splitAdvance_threshold "iii" 1005).1 rfl).2.1 (by decide)⟩,
   ⟨by decide, ((splitAdvance_threshold "<HHH" 1005).2 (by decide)).2 (by decide)⟩,
   ⟨by decide, ((splitAdvance_threshold "<HHH" 1012).2 (by decide)).1 (by decide)⟩⟩

/-! ## C7 — `session.format` restores the configuration -/

/-- C7: `session.format` saves `MAX_LINE_WIDTH` before running the compiled
formatter and writes it back afterwards, so the returned configuration has
its pre-call `MAX_LINE_WIDTH` for *every* formatter — in particular when the
formatter ran `lw(n)` (`lineWidthEffect`).  Moreover, whenever the formatter
leaves the remaining configuration fields unchanged (the source scan shows
ast.py:582 is the only configuration write during evaluation), the whole
configuration observed after `format` equals the pre-call configuration. -/
theorem sessionFormat_restores_config {α β : Type}
    (formatter : FmtConfig α → FmtConfig α × β) (cfg : FmtConfig α) :
    (sessionFormat formatter cfg).1.maxLineWidth = cfg.maxLineWidth ∧
    ((∀ c, (formatter c).1.rest = c.rest) →
      (sessionFormat formatter cfg).1 = cfg) := by
  obtain ⟨w, r⟩ := cfg
  refine ⟨rfl, fun h => ?_⟩
  show FmtConfig.mk w ((formatter ⟨w, r⟩).1.rest) = ⟨w, r⟩
  rw [h ⟨w, r⟩]

/-- Witness for C7: the formatter `lw(5)` mutates `MAX_LINE_WIDTH`
mid-evaluation, yet `sessionFormat` returns with the configuration equal to
its pre-call value `⟨79, 42⟩`. -/
theorem sessionFormat_restores_config_witness :
    (∀ c : FmtConfig Nat, ((lineWidthEffect 5 c).1).rest = c.rest) ∧
    (sessionFormat (lineWidthEffect 5) (⟨79, 42⟩ : FmtConfig Nat)).1 = ⟨79, 42⟩ :=
  ⟨fun _ => rfl,
   (sessionFormat_restores_config (lineWidthEffect 5) ⟨79, 42⟩).2 fun _ => rfl⟩

end Pyisis

namespace Pyisis

/-! ## C8 — `val` and the `rsum`/`rmin`/`rmax`/`ravr` aggregates -/

/-- C8 (counterexample): over the four-literal sequence
`'a','1.5','b','2.0'`, `rmin` returns `0` (not `1.5`) and `ravr` returns
`0.875` (not `1.75`): `NumFuncSeq.get_sequence` descends into the
`Sequence` and evaluates each literal separately, and `get_values` yields
the default `[0]` for each of the non-numeric literals `'a'` and `'b'`, so
the aggregated list is `[0, 1.5, 0, 2.0]`. -/
theorem numFuncSeq_rmin_ravr_counterexample :
    numFuncSeqEval "RMIN" fourLitConcat [] chainDefault ⟨79⟩ =
      some { isFloat := false, val := 0 } ∧
    (0 : ℚ) ≠ 3 / 2 ∧
    numFuncSeqEval "RAVR" fourLitConcat [] chainDefault ⟨79⟩ =
      some { isFloat := true, val := 7 / 8 } ∧
    (7 / 8 : ℚ) ≠ 7 / 4 := by
  refine ⟨?_, by norm_num, ?_, by norm_num⟩ <;>
  · norm_num +decide [numFuncSeqEval, numFuncValEval, fourLitConcat,
    chainDefault, getSeqValues, getSeqValuesList, nodeEval, seqList, ilitEval,
    getValues, findallNum, findallHex, findallScan, matchNumLen, matchHexLen,
    pyEvalNum, digitsVal, pyValToStr, getLastLine, pySliceFrom, pySliceTo,
    pyRfind, pyRfindBefore, pyFindChar, pyFindSub, pyListMin, pyListMax,
    pySum, pyAvr, stripResetLastSpaces, lastNonSpaceIdx, formatMode,
    List.takeWhile, Char.isDigit, List.drop, List.length, List.headD,
    List.foldl, List.range, List.range.loop, List.map, List.take,
    List.getLast?, List.get?, List.flatten, List.dropLast, Option.getD,
    List.contains, List.elem, List.append, List.cons_append, List.nil_append,
    min, Nat.min_def,
    show ('1').toNat = 49 from by decide, show ('2').toNat = 50 from by decide,
    show ('5').toNat = 53 from by decide, show ('0').toNat = 48 from by decide,
    show Char.isDigit '1' = true from by decide,
    show Char.isDigit '2' = true from by decide,
    show Char.isDigit '5' = true from by decide,
    show Char.isDigit '0' = true from by decide,
    show Char.isDigit 'a' = false from by decide,
    show Char.isDigit 'b' = false from by decide,
    show Char.isDigit '.' = false from by decide]

/-- C8 (amended): the `Sequence` evaluates to the concatenation
`"a1.5b2.0"`, over which `val` returns `1.5`; the aggregates see the value
list `[0, 1.5, 0, 2.0]` (each non-numeric literal contributing the default
int `0`), so `rsum = 3.5` and `rmax = 2.0` as claimed, while `rmin = 0` and
`ravr = 3.5/4 = 0.875`. -/
theorem numFunc_fourLiterals_values :
    pyValToStr (nodeEval fourLitConcat [] chainDefault ⟨79⟩).1 =
      ['a', '1', '.', '5', 'b', '2', '.', '0'] ∧
    numFuncValEval fourLitConcat [] chainDefault ⟨79⟩ =
      { isFloat := true, val := 3 / 2 } ∧
    numFuncSeqEval "RSUM" fourLitConcat [] chainDefault ⟨79⟩ =
      some { isFloat := true, val := 7 / 2 } ∧
    numFuncSeqEval "RMAX" fourLitConcat [] chainDefault ⟨79⟩ =
      some { isFloat := true, val := 2 } ∧
    numFuncSeqEval "RMIN" fourLitConcat [] chainDefault ⟨79⟩ =
      some { isFloat := false, val := 0 } ∧
    numFuncSeqEval "RAVR" fourLitConcat [] chainDefault ⟨79⟩ =
      some { isFloat := true, val := 7 / 8 } := by
  refine ⟨by decide, ?_, ?_, ?_, ?_, ?_⟩ <;>
  · norm_num +decide [numFuncSeqEval, numFuncValEval, fourLitConcat,
    chainDefault, getSeqValues, getSeqValuesList, nodeEval, seqList, ilitEval,
    getValues, findallNum, findallHex, findallScan, matchNumLen, matchHexLen,
    pyEvalNum, digitsVal, pyValToStr, getLastLine, pySliceFrom, pySliceTo,
    pyRfind, pyRfindBefore, pyFindChar, pyFindSub, pyListMin, pyListMax,
    pySum, pyAvr, stripResetLastSpaces, lastNonSpaceIdx, formatMode,
    List.takeWhile, Char.isDigit, List.drop, List.length, List.headD,
    List.foldl, List.range, List.range.loop, List.map, List.take,
    List.getLast?, List.get?, List.flatten, List.dropLast, Option.getD,
    List.contains, List.elem, List.append, List.cons_append, List.nil_append,
    min, Nat.min_def,
    show ('1').toNat = 49 from by decide, show ('2').toNat = 50 from by decide,
    show ('5').toNat = 53 from by decide, show ('0').toNat = 48 from by decide,
    show Char.isDigit '1' = true from by decide,
    show Char.isDigit '2' = true from by decide,
    show Char.isDigit '5' = true from by decide,
    show Char.isDigit '0' = true from by decide,
    show Char.isDigit 'a' = false from by decide,
    show Char.isDigit 'b' = false from by decide,
    show Char.isDigit '.' = false from by decide]

/-! ## C9 — line-break invariant -/

/-- C9 (counterexample): the format `lw(1), 'a b'` produces the single
output line `"a b"` — three characters including a space — while
`MAX_LINE_WIDTH` is `1`: with `max_width ≤ 0` in `LeafNode.format`,
`break_line` is disabled (ast.py:2203-2207) and the pre-broken pieces are
re-joined without their separator (the `else` branch of ast.py:306-312
appends no separator), so a line longer than the window that is not a
single space-free word is emitted. -/
theorem formatChain_line_exceeds_width :
    (formatChain [.lw (.numberN 1), .ilit ['a', ' ', 'b']] ⟨79⟩).1 =
      ['a', ' ', 'b'] ∧
    (formatChain [.lw (.numberN 1), .ilit ['a', ' ', 'b']] ⟨79⟩).2.maxLineWidth
      = 1 ∧
    (['a', ' ', 'b'] : Str).splitOn '\n' = [['a', ' ', 'b']] ∧
    lineOkC9 1 ['a', ' ', 'b'] = false := by
  refine ⟨by decide, by decide, by decide, by decide⟩

/-- Invariant of a fold that keeps the last index satisfying a predicate:
starting from `-1`, the result stays within `[-1, B)` when every visited
index is below `B`. -/
theorem foldl_keepIdx_bounds (q : Nat → Prop) [DecidablePred q] (B : Int) :
    ∀ (l : List Nat) (acc : Int), -1 ≤ acc ∧ acc < B →
      (∀ i ∈ l, (i : Int) < B) →
      -1 ≤ l.foldl (fun a i => if q i then (i : Int) else a) acc ∧
        l.foldl (fun a i => if q i then (i : Int) else a) acc < B := by
  intro l
  induction l with
  | nil => exact fun acc hacc _ => hacc
  | cons x xs ih =>
    intro acc hacc hl
    simp only [List.foldl_cons]
    refine ih _ ?_ (fun i hi => hl i (List.mem_cons_of_mem _ hi))
    have hx := hl x (List.mem_cons_self x xs)
    split <;> omega

/-- Invariant of the `rfind` scan: the result is `-1` or an index below the
search bound. -/
theorem pyRfindBefore_bounds (s : Str) (c : Char) (e : Nat) :
    -1 ≤ pyRfindBefore s c e ∧ pyRfindBefore s c e < (e : Int) := by
  unfold pyRfindBefore
  refine foldl_keepIdx_bounds (fun i => s.get? i = some c) (e : Int) _
    (-1) ⟨by omega, by omega⟩ ?_
  intro i hi
  have := List.mem_range.mp hi
  omega

/-- The cut position of `break_line` lies in `[0, max_width]` whenever
`1 ≤ max_width`. -/
theorem breakCut_bounds (line : Str) (mw : Int) (h : 1 ≤ mw) :
    0 ≤ breakCut line mw ∧ breakCut line mw ≤ mw := by
  have hmwt : ((mw.toNat : Int)) = mw := Int.toNat_of_nonneg (by omega)
  have h0 := pyRfindBefore_bounds line ' ' (mw.toNat + 1)
  have h1 := pyRfindBefore_bounds
    (pySliceTo line (pyRfindBefore line ' ' (mw.toNat + 1))) ' ' (mw.toNat + 1)
  simp only [breakCut]
  split_ifs <;> omega

/-- Every piece produced by `break_line` with `spaces = ''` and
`1 ≤ max_width` has length at most `max_width + 1`, given sufficient
fuel. -/
theorem breakLineF_piece_bound (fuel : Nat) :
    ∀ (line : Str) (mw : Int), 1 ≤ mw → line.length < fuel →
      ∀ p ∈ breakLineF fuel line mw [], (p.length : Int) ≤ mw + 1 := by
  induction fuel with
  | zero => exact fun line mw _ h2 => absurd h2 (by omega)
  | succ n ih =>
    intro line mw h1 h2 p hp
    have hcut := breakCut_bounds line mw h1
    have hslice : (pySliceTo line (breakCut line mw + 1)).length ≤
        (breakCut line mw + 1).toNat := by
      simp only [pySliceTo]
      split_ifs with h
      · simp [List.length_take]
      · exact absurd (by omega : (0 : Int) ≤ breakCut line mw + 1) h
    have hdrop : (pySliceFrom line (breakCut line mw + 1)).length =
        line.length - (breakCut line mw + 1).toNat := by
      simp only [pySliceFrom]
      split_ifs with h
      · simp [List.length_drop]
      · exact absurd (by omega : (0 : Int) ≤ breakCut line mw + 1) h
    simp only [breakLineF, List.nil_append] at hp
    split_ifs at hp with hbase hrest
    · rcases List.mem_singleton.mp hp with rfl
      rcases hbase with hb | hb <;> omega
    · push_neg at hbase
      rcases List.mem_cons.mp hp with rfl | hp2
      · omega
      · refine ih _ mw h1 ?_ p hp2
        omega
    · push_neg at hbase
      rcases List.mem_cons.mp hp with rfl | hp2
      · omega
      · exact absurd hp2 (List.not_mem_nil p)

/-- The fuel bound discharged: every piece `break_line` returns under
`1 ≤ max_width` has length at most `max_width + 1`. -/
theorem breakLineRun_piece_bound (line : Str) (mw : Int) (p : Str)
    (h1 : 1 ≤ mw) (hp : p ∈ breakLineRun line mw) :
    (p.length : Int) ≤ mw + 1 :=
  breakLineF_piece_bound (line.length + 1) line mw h1 (by omega) p hp

/-- C9 (amended): `break_line` obeys its piece bound — with
`1 ≤ max_width` every piece it returns has length at most
`max_width + 1` — but the per-line width invariant of the claim fails even
for widths of 2 or more: the format `lw(4), 'abcd pppp'` emits the lines
`"abcd"` and `" pppp"` while `MAX_LINE_WIDTH = 4` is in effect, and the
second line has five characters and contains a space
(`InconditionalLiteral.eval` pre-breaks the text at width 4,
`LeafNode.format` re-breaks the resulting piece `"abcd "` at
`max_width = MAX_LINE_WIDTH - 1 = 3` and appends the following piece
`"pppp"` with no separator, ast.py:306-312). -/
theorem breakLine_bound_and_width4_violation :
    (∀ (line : Str) (mw : Int), 1 ≤ mw →
        ∀ p ∈ breakLineRun line mw, (p.length : Int) ≤ mw + 1) ∧
    ((formatChain [.lw (.numberN 4),
        .ilit ['a', 'b', 'c', 'd', ' ', 'p', 'p', 'p', 'p']]
        ⟨79⟩).1.splitOn '\n' =
      [['a', 'b', 'c', 'd'], [' ', 'p', 'p', 'p', 'p']]) ∧
    (formatChain [.lw (.numberN 4),
        .ilit ['a', 'b', 'c', 'd', ' ', 'p', 'p', 'p', 'p']]
        ⟨79⟩).2.maxLineWidth = 4 ∧
    lineOkC9 4 [' ', 'p', 'p', 'p', 'p'] = false :=
  ⟨fun line mw h1 p hp => breakLineRun_piece_bound line mw p h1 hp,
   by decide, by decide, by decide⟩

/-- Witness for C9 (amended): the piece bound instantiated at a concrete
call — `break_line("ab cd", 3)` contains the piece `"cd"`, within the
bound `3 + 1`. -/
theorem breakLine_bound_and_width4_violation_witness :
    (1 : Int) ≤ 3 ∧
    (['c', 'd'] : Str) ∈ breakLineRun ['a', 'b', ' ', 'c', 'd'] 3 ∧
    ((['c', 'd'] : Str).length : Int) ≤ 3 + 1 :=
  ⟨by decide, by decide,
   breakLine_bound_and_width4_violation.1 ['a', 'b', ' ', 'c', 'd'] 3
     (by decide) ['c', 'd'] (by decide)⟩

end Pyisis

namespace Pyisis

/-! ## Byte-store lemmas -/

/-- A read of `n` bytes has length `n`. -/
theorem length_readBytes (f : Store) (pos : Int) (n : Nat) :
    (readBytes f pos n).length = n := by
  simp [readBytes]

/-- Reading an in-range byte of `readBytes`. -/
theorem readBytes_getD (f : Store) (pos : Int) (n k : Nat) (h : k < n) :
    (readBytes f pos n).getD k 0 = f (pos + k) := by
  simp only [readBytes, List.getD_eq_getElem?_getD, List.getElem?_map]
  rw [List.getElem?_range h]
  rfl

/-- `u16At` over `readBytes` reads two consecutive store bytes. -/
theorem u16At_readBytes (f : Store) (pos : Int) (n k : Nat) (h : k + 1 < n) :
    u16At (readBytes f pos n) k = f (pos + k) + 256 * f (pos + (k + 1)) := by
  unfold u16At
  rw [readBytes_getD f pos n k (by omega), readBytes_getD f pos n (k + 1) h]
  push_cast
  ring_nf

/-- `u32At` over `readBytes` reads four consecutive store bytes. -/
theorem u32At_readBytes (f : Store) (pos : Int) (n k : Nat) (h : k + 3 < n) :
    u32At (readBytes f pos n) k =
      f (pos + k) + 256 * f (pos + (k + 1)) + 65536 * f (pos + (k + 2)) +
        16777216 * f (pos + (k + 3)) := by
  unfold u32At
  rw [readBytes_getD f pos n k (by omega), readBytes_getD f pos n (k + 1) (by omega),
    readBytes_getD f pos n (k + 2) (by omega), readBytes_getD f pos n (k + 3) h]
  push_cast
  ring_nf

/-- Stores agreeing on a range read equal. -/
theorem readBytes_congr (f g : Store) (pos : Int) (n : Nat)
    (h : ∀ k : Nat, k < n → f (pos + k) = g (pos + k)) :
    readBytes f pos n = readBytes g pos n := by
  simp only [readBytes]
  exact List.map_congr_left fun k hk => h k (List.mem_range.mp hk)

/-- Reading a segment of just-written bytes returns that segment. -/
theorem readBytes_writeBytes_segment (f : Store) (pos : Int) (l : Bytes)
    (a n : Nat) (h : a + n ≤ l.length) :
    readBytes (writeBytes f pos l) (pos + a) n = (l.drop a).take n := by
  apply List.ext_getElem?
  intro i
  by_cases hi : i < n
  · rw [List.getElem?_take_of_lt hi, List.getElem?_drop]
    have hlhs : (readBytes (writeBytes f pos l) (pos + (a : Int)) n)[i]? =
        some (writeBytes f pos l (pos + (a : Int) + (i : Int))) := by
      simp only [readBytes, List.getElem?_map]
      rw [List.getElem?_range hi]
      rfl
    rw [hlhs]
    have hai : a + i < l.length := by omega
    rw [List.getElem?_eq_getElem hai]
    congr 1
    simp only [writeBytes]
    rw [if_pos (by constructor <;> omega)]
    have ht : (pos + (a : Int) + (i : Int) - pos).toNat = a + i := by omega
    rw [ht]
    exact List.getD_eq_getElem l 0 hai
  · rw [List.getElem?_eq_none_iff.mpr, List.getElem?_eq_none_iff.mpr]
    · simp only [List.length_take, List.length_drop]
      omega
    · rw [length_readBytes]
      omega

/-- A write strictly below the read range does not affect it. -/
theorem readBytes_writeBytes_below (f : Store) (pos : Int) (l : Bytes)
    (q : Int) (n : Nat) (h : pos + l.length ≤ q) :
    readBytes (writeBytes f pos l) q n = readBytes f q n := by
  apply readBytes_congr
  intro k _
  simp only [writeBytes]
  rw [if_neg]
  omega

/-- A byte write outside a range leaves every byte of the range
unchanged. -/
theorem writeBytes_outside (f : Store) (pos : Int) (l : Bytes) (i : Int)
    (h : i < pos ∨ pos + l.length ≤ i) : writeBytes f pos l i = f i := by
  simp only [writeBytes]
  rw [if_neg]
  omega

end Pyisis

namespace Pyisis

/-! ## C4 — back-pointers of a resaved record -/

/-- C4 (counterexample): on a fresh database, `save(R)` followed by
`save(R, reset_flags=False)` does not leave `(mfbwb, mfbwp)` pointing at
the previous version.  The first save keeps `new_flag` set in the XRF, so
the second save takes the new-record branch of `MasterRecord.save` and
zeroes both back-pointer fields, and `MasterFile.previous` then reports
that no previous version exists. -/
theorem save_twice_backpointer_zero :
    (saveTwice.map fun o => (o.mrec.mfbwb, o.mrec.mfbwp)) = .ok (0, 0) ∧
    (saveTwice.bind fun o => previousRec o.st o.mrec) = .ok none :=
  ⟨rfl, rfl⟩

/-- C4 (amended): back-pointers do appear once the stored `new_flag` has
been cleared by a `reset_flags=True` save.  On a fresh database the first
save writes the record at block 1, offset 64; after
`save(R); save(R, reset_flags=True); save(R, reset_flags=False)` the third
save takes the modified branch, stores `(mfbwb, mfbwp) = (1, 64)` — the
block and offset of the previous version — and `MasterFile.previous`
returns that previous version: mfn 1, leader status 1 (patched when it was
superseded), and exactly the fields of `R`. -/
theorem save_backpointer_after_flag_reset :
    ((saveRecord newMasterFile c4Rec false).map fun o => o.wpos) = .ok 64 ∧
    (saveThrice.map fun o => (o.mrec.mfbwb, o.mrec.mfbwp)) = .ok (1, 64) ∧
    ((saveThrice.bind fun o => previousRec o.st o.mrec).map
        (Option.map fun r => (r.mfn, r.status, r.fields))) =
      .ok (some (1, 1, c4Rec.fields)) :=
  ⟨rfl, rfl, rfl⟩

end Pyisis

namespace Pyisis

/-! ## C2 — delete/undelete round trip -/

/-- Re-assigning an `XrfEntry`'s current status leaves it unchanged. -/
theorem xrfEntry_set_status_eq (e : XrfEntry) (s : String) (h : e.status = s) :
    { e with status := s } = e := by
  cases e
  cases h
  rfl

/-- Two stores that agree outside the two leader status bytes
`[pos+18, pos+20)` parse to records equal on everything except the status
word. -/
theorem parseRecord_proj_frame (f g : Store) (pos : Int)
    (h : ∀ i : Int, i < pos + 18 ∨ pos + 20 ≤ i → f i = g i) :
    (parseRecord f pos).map readProj = (parseRecord g pos).map readProj := by
  have hb : ∀ k : Nat, k < 18 → f (pos + k) = g (pos + k) := by
    intro k hk
    exact h _ (Or.inl (by push_cast; omega))
  have e16 : ∀ k : Nat, k + 1 < 18 →
      u16At (readBytes f pos 20) k = u16At (readBytes g pos 20) k := by
    intro k hk
    have h0 := hb k (by omega)
    have h1 := hb (k + 1) (by omega)
    push_cast at h0 h1
    rw [u16At_readBytes f pos 20 k (by omega), u16At_readBytes g pos 20 k (by omega),
      h0, h1]
  have e32 : ∀ k : Nat, k + 3 < 18 →
      i32At (readBytes f pos 20) k = i32At (readBytes g pos 20) k := by
    intro k hk
    have h0 := hb k (by omega)
    have h1 := hb (k + 1) (by omega)
    have h2 := hb (k + 2) (by omega)
    have h3 := hb (k + 3) (by omega)
    push_cast at h0 h1 h2 h3
    unfold i32At
    rw [u32At_readBytes f pos 20 k (by omega), u32At_readBytes g pos 20 k (by omega),
      h0, h1, h2, h3]
  have hdir : ∀ n : Nat, readBytes f (pos + 20) n = readBytes g (pos + 20) n := by
    intro n
    apply readBytes_congr
    intro k _
    exact h _ (Or.inr (by push_cast; omega))
  simp only [parseRecord]
  rw [e16 4 (by omega), e16 12 (by omega), e16 14 (by omega), e16 16 (by omega),
    e32 0 (by omega), e32 8 (by omega), hdir]
  split_ifs with hc
  · simp [Except.map, readProj]
  · rfl

/-- C2: `MasterFile.delete` raises unless the XRF status is `active`,
`MasterFile.undelete` raises unless it is `logically deleted`, and on an
active record with a valid (positive) block pointer the round trip
`delete(mfn); undelete(mfn)` restores `status = active` in the XRF cache,
resets the on-disk leader status word to `ACTIVE = 0`, and leaves every
other part of the stored record — leader fields and all field data —
unchanged. -/
theorem delete_undelete_roundtrip (st : MFState) (mfn : Int) :
    ((st.xrf mfn).status ≠ "active" → ∃ e, deleteRec st mfn = .error e) ∧
    ((st.xrf mfn).status ≠ "logically deleted" →
      ∃ e, undeleteRec st mfn = .error e) ∧
    ((st.xrf mfn).status = "active" → 1 ≤ (st.xrf mfn).block →
      ∃ st1 st2, deleteRec st mfn = .ok st1 ∧ undeleteRec st1 mfn = .ok st2 ∧
        st2.xrf mfn = st.xrf mfn ∧
        u16At (readBytes st2.mst
          (((st.xrf mfn).block - 1) * 512 + (st.xrf mfn).offset + 18) 2) 0 = 0 ∧
        (parseRecord st2.mst
            (((st.xrf mfn).block - 1) * 512 + (st.xrf mfn).offset)).map readProj =
          (parseRecord st.mst
            (((st.xrf mfn).block - 1) * 512 + (st.xrf mfn).offset)).map readProj) := by
  refine ⟨?_, ?_, ?_⟩
  · intro hne
    simp only [deleteRec, getRecordOffset]
    split_ifs with h1 h2 h3 h4
    · exact absurd h1 hne
    · exact ⟨_, rfl⟩
    · rcases h3 with h3 | h3 <;> rw [h3] <;> exact ⟨_, rfl⟩
    · exact ⟨_, rfl⟩
    · exact ⟨_, rfl⟩
  · intro hne
    simp only [undeleteRec, getRecordOffset]
    split_ifs with h1 h2 h3
    · exact ⟨_, rfl⟩
    · rcases h2 with h2 | h2 <;> rw [h2] <;> exact ⟨_, rfl⟩
    · exact ⟨_, rfl⟩
    · exact ⟨_, rfl⟩
  · intro ha hb
    have hblk : (((st.xrf mfn).block.natAbs : Int)) = (st.xrf mfn).block :=
      Int.natAbs_of_nonneg (by omega)
    refine
      ⟨{ st with
          mst := writeBytes st.mst
            (((st.xrf mfn).block - 1) * 512 + (st.xrf mfn).offset + 18) (packH 1)
          xrf := fun k => if k = mfn
            then { st.xrf mfn with status := "logically deleted" } else st.xrf k
          xrfFile := fun k => if k = mfn
            then xrfWriteWord { st.xrf mfn with status := "logically deleted" }
            else st.xrfFile k },
        { st with
          mst := writeBytes
            (writeBytes st.mst
              (((st.xrf mfn).block - 1) * 512 + (st.xrf mfn).offset + 18) (packH 1))
            (((st.xrf mfn).block - 1) * 512 + (st.xrf mfn).offset + 18) (packH 0)
          xrf := fun k => if k = mfn
            then { st.xrf mfn with status := "active" } else st.xrf k
          xrfFile := fun k => if k = mfn
            then xrfWriteWord { st.xrf mfn with status := "active" }
            else st.xrfFile k },
        ?_, ?_, ?_, ?_, ?_⟩
    · simp only [deleteRec, getRecordOffset]
      rw [if_pos ha]
      rfl
    · simp only [undeleteRec, getRecordOffset]
      norm_num
      rw [if_neg (by decide : ¬("logically deleted" = "active"))]
      rw [show |(st.xrf mfn).block| = (st.xrf mfn).block from abs_of_nonneg (by omega)]
      refine congrArg Except.ok ?_
      congr 1
      · funext k
        by_cases hk : k = mfn <;> simp [hk]
      · funext k
        by_cases hk : k = mfn <;> simp [hk]
    · have hset : ({ st.xrf mfn with status := "active" } : XrfEntry) = st.xrf mfn :=
        xrfEntry_set_status_eq _ _ ha
      simp [hset]
    · have hseg := readBytes_writeBytes_segment
        (writeBytes st.mst
          (((st.xrf mfn).block - 1) * 512 + (st.xrf mfn).offset + 18) (packH 1))
        (((st.xrf mfn).block - 1) * 512 + (st.xrf mfn).offset + 18) (packH 0) 0 2
        (by decide)
      simp only [Nat.cast_zero, add_zero, List.drop_zero] at hseg
      show u16At (readBytes
        (writeBytes
          (writeBytes st.mst
            (((st.xrf mfn).block - 1) * 512 + (st.xrf mfn).offset + 18) (packH 1))
          (((st.xrf mfn).block - 1) * 512 + (st.xrf mfn).offset + 18) (packH 0))
        (((st.xrf mfn).block - 1) * 512 + (st.xrf mfn).offset + 18) 2) 0 = 0
      rw [hseg]
      rfl
    · apply parseRecord_proj_frame
      intro i hi
      show writeBytes
        (writeBytes st.mst
          (((st.xrf mfn).block - 1) * 512 + (st.xrf mfn).offset + 18) (packH 1))
        (((st.xrf mfn).block - 1) * 512 + (st.xrf mfn).offset + 18) (packH 0) i =
        st.mst i
      rw [writeBytes_outside _ _ _ _ (by norm_num [packH]; omega),
        writeBytes_outside _ _ _ _ (by norm_num [packH]; omega)]

end Pyisis

namespace Pyisis

/-- Witness for C2: on a fresh database MFN 1 is `inexistent`, so both
`delete` and `undelete` raise; after one save MFN 1 is an active record at
block 1, offset 64, and the delete/undelete round trip restores it. -/
theorem delete_undelete_roundtrip_witness :
    (∃ e, deleteRec newMasterFile 1 = .error e) ∧
    (∃ e, undeleteRec newMasterFile 1 = .error e) ∧
    (∃ st1 st2, deleteRec demoActiveState 1 = .ok st1 ∧
      undeleteRec st1 1 = .ok st2 ∧
      st2.xrf 1 = demoActiveState.xrf 1 ∧
      u16At (readBytes st2.mst
        (((demoActiveState.xrf 1).block - 1) * 512 +
          (demoActiveState.xrf 1).offset + 18) 2) 0 = 0 ∧
      (parseRecord st2.mst
          (((demoActiveState.xrf 1).block - 1) * 512 +
            (demoActiveState.xrf 1).offset)).map readProj =
        (parseRecord demoActiveState.mst
            (((demoActiveState.xrf 1).block - 1) * 512 +
              (demoActiveState.xrf 1).offset)).map readProj) :=
  ⟨(delete_undelete_roundtrip newMasterFile 1).1 (by decide),
   (delete_undelete_roundtrip newMasterFile 1).2.1 (by decide),
   (delete_undelete_roundtrip demoActiveState 1).2.2 (by decide) (by decide)⟩

end Pyisis

namespace Pyisis

/-! ## C1 — serialisation lemmas -/

/-- `Int.emod` is the `%` of the omega fragment. -/
theorem int_emod_eq (a b : Int) : a.emod b = a % b := rfl

/-- `Int.ediv` is the `/` of the omega fragment. -/
theorem int_ediv_eq (a b : Int) : a.ediv b = a / b := rfl

/-- A directory of `n` fields occupies `6n` bytes. -/
theorem dirBytes_length (fields : List (Nat × Bytes)) :
    ∀ off, (dirBytes fields off).length = 6 * fields.length := by
  induction fields with
  | nil => intro off; rfl
  | cons e rest ih =>
    intro off
    obtain ⟨t, d⟩ := e
    simp [dirBytes, packH, ih]
    ring

/-- The concatenated field data occupies `totalDataLen` bytes. -/
theorem flatMap_data_length (fields : List (Nat × Bytes)) :
    (fields.flatMap fun e => e.2).length = totalDataLen fields := by
  induction fields with
  | nil => rfl
  | cons e rest ih => simp [totalDataLen, ih]

/-- Length of a serialised record. -/
theorem recordBytes_length (mfn mfrl mfbwb mfbwp base nvf : Int)
    (fields : List (Nat × Bytes)) :
    (recordBytes mfn mfrl mfbwb mfbwp base nvf fields).length =
      20 + 6 * fields.length + totalDataLen fields := by
  simp [recordBytes, packI, packH, dirBytes_length, totalDataLen,
    Function.comp_def]
  ring

/-- The control header occupies 64 bytes. -/
theorem ctrlBytes_length (st : MFState) : (ctrlBytes st).length = 64 := by
  simp [ctrlBytes, packI, packH]

/-- Reading a prefix of just-written bytes. -/
theorem readBytes_writeBytes_prefix (f : Store) (pos : Int) (l : Bytes)
    (n : Nat) (h : n ≤ l.length) :
    readBytes (writeBytes f pos l) pos n = l.take n := by
  have h0 := readBytes_writeBytes_segment f pos l 0 n (by omega)
  simpa using h0

/-- `parseRecord` only looks at the reads from `pos` and `pos + 20`. -/
theorem parseRecord_congr (f g : Store) (pos : Int)
    (h1 : readBytes f pos 20 = readBytes g pos 20)
    (h2 : ∀ n, readBytes f (pos + 20) n = readBytes g (pos + 20) n) :
    parseRecord f pos = parseRecord g pos := by
  simp only [parseRecord, h1, h2]

/-- The leader fields of a serialised record decode to the written values
when they are in range. -/
theorem recordBytes_leader (mfn mfrl mfbwb mfbwp base nvf : Int)
    (fields : List (Nat × Bytes))
    (hmfn : 0 ≤ mfn ∧ mfn < 2147483648)
    (hrl : 0 ≤ mfrl ∧ mfrl < 65536)
    (hbwb : 0 ≤ mfbwb ∧ mfbwb < 2147483648)
    (hbwp : 0 ≤ mfbwp ∧ mfbwp < 65536)
    (hbase : 0 ≤ base ∧ base < 65536)
    (hnvf : 0 ≤ nvf ∧ nvf < 65536) :
    i32At (recordBytes mfn mfrl mfbwb mfbwp base nvf fields) 0 = mfn ∧
    u16At (recordBytes mfn mfrl mfbwb mfbwp base nvf fields) 4 = mfrl.toNat ∧
    i32At (recordBytes mfn mfrl mfbwb mfbwp base nvf fields) 8 = mfbwb ∧
    u16At (recordBytes mfn mfrl mfbwb mfbwp base nvf fields) 12 = mfbwp.toNat ∧
    u16At (recordBytes mfn mfrl mfbwb mfbwp base nvf fields) 14 = base.toNat ∧
    u16At (recordBytes mfn mfrl mfbwb mfbwp base nvf fields) 16 = nvf.toNat ∧
    u16At (recordBytes mfn mfrl mfbwb mfbwp base nvf fields) 18 = 0 := by
  refine ⟨?_, ?_, ?_, ?_, ?_, ?_, ?_⟩
  · have hu : u32At (recordBytes mfn mfrl mfbwb mfbwp base nvf fields) 0 =
        mfn.toNat := by
      simp [u32At, recordBytes, packI, packH, int_emod_eq]
      omega
    simp only [i32At, hu]
    rw [if_pos (by omega)]
    omega
  · simp [u16At, recordBytes, packI, packH, int_emod_eq]
    omega
  · have hu : u32At (recordBytes mfn mfrl mfbwb mfbwp base nvf fields) 8 =
        mfbwb.toNat := by
      simp [u32At, recordBytes, packI, packH, int_emod_eq]
      omega
    simp only [i32At, hu]
    rw [if_pos (by omega)]
    omega
  · simp [u16At, recordBytes, packI, packH, int_emod_eq]
    omega
  · simp [u16At, recordBytes, packI, packH, int_emod_eq]
    omega
  · simp [u16At, recordBytes, packI, packH, int_emod_eq]
    omega
  · simp [u16At, recordBytes, packI, packH, int_emod_eq]

end Pyisis

namespace Pyisis

/-- Unpacking the directory written by `save` returns the flattened field
list: each `<HHH>` triple round-trips through `packH`/`u16At` and each data
slice is recovered from the concatenated data region. -/
theorem parsePairs_dirBytes :
    ∀ (fields : List (Nat × Bytes)) (off : Nat) (pre : Bytes),
      pre.length = off →
      off + totalDataLen fields < 65536 →
      (∀ e ∈ fields, e.1 < 65536) →
      parsePairs (dirBytes fields off) (pre ++ fields.flatMap fun e => e.2)
        fields.length = fields := by
  intro fields
  induction fields with
  | nil => intro off pre hpre hb ht; rfl
  | cons e rest ih =>
    intro off pre hpre hb ht
    obtain ⟨t, d⟩ := e
    have hbounds : t < 65536 ∧ off < 65536 ∧ d.length < 65536 := by
      refine ⟨ht (t, d) (by simp), ?_, ?_⟩ <;>
        (simp only [totalDataLen, List.map_cons, List.sum_cons] at hb; omega)
    have h0 : u16At (dirBytes ((t, d) :: rest) off) 0 = t := by
      simp [dirBytes, packH, u16At, int_emod_eq]
      omega
    have h2 : u16At (dirBytes ((t, d) :: rest) off) 2 = off := by
      simp [dirBytes, packH, u16At, int_emod_eq]
      omega
    have h4 : u16At (dirBytes ((t, d) :: rest) off) 4 = d.length := by
      simp [dirBytes, packH, u16At, int_emod_eq]
      omega
    have hdrop6 : (dirBytes ((t, d) :: rest) off).drop 6 =
        dirBytes rest (off + d.length) := by
      simp [dirBytes, packH]
    have hflat : ((t, d) :: rest).flatMap (fun e => e.2) =
        d ++ rest.flatMap fun e => e.2 := by simp
    have hslice : ((pre ++ ((t, d) :: rest).flatMap fun e => e.2).drop
        off).take d.length = d := by
      rw [hflat, ← List.append_assoc, ← hpre]
      rw [show pre.length = (pre ++ d).length - d.length by simp]
      rw [show (pre ++ d) ++ rest.flatMap (fun e => e.2) =
        pre ++ (d ++ rest.flatMap fun e => e.2) from by simp]
      rw [show (pre ++ d).length - d.length = pre.length by simp]
      rw [List.drop_left]
      exact List.take_left d _
    have htail : parsePairs (dirBytes rest (off + d.length))
        (pre ++ ((t, d) :: rest).flatMap fun e => e.2) rest.length = rest := by
      rw [hflat, ← List.append_assoc]
      refine ih (off + d.length) (pre ++ d) (by simp [hpre]) ?_
        (fun e he => ht e (by simp [he]))
      simp only [totalDataLen, List.map_cons, List.sum_cons] at hb
      simp only [totalDataLen]
      omega
    simp only [List.length_cons, parsePairs, h0, h2, h4, hdrop6, htail,
      hslice, Nat.mod_eq_of_lt hbounds.1]

end Pyisis

namespace Pyisis

/-- The head group produced by `groupPairs` keeps the tag of the head
pair. -/
theorem groupPairs_head_tag (l : List (Nat × Bytes)) (q : Nat × List Bytes)
    (gs : List (Nat × List Bytes)) (h : groupPairs l = q :: gs) :
    ∃ p ps, l = p :: ps ∧ p.1 = q.1 := by
  cases l with
  | nil => simp [groupPairs] at h
  | cons p ps =>
    obtain ⟨t, d⟩ := p
    refine ⟨(t, d), ps, rfl, ?_⟩
    simp only [groupPairs] at h
    cases hg : groupPairs ps with
    | nil =>
      simp only [hg] at h
      simp at h
      first
        | exact congrArg Prod.fst h
        | exact congrArg Prod.fst h.1
    | cons q2 gs2 =>
      obtain ⟨t2, ds2⟩ := q2
      simp only [hg] at h
      by_cases ht : t = t2
      · simp only [if_pos ht] at h
        simp at h
        first
          | exact congrArg Prod.fst h
          | exact congrArg Prod.fst h.1
      · simp only [if_neg ht] at h
        simp at h
        first
          | exact congrArg Prod.fst h
          | exact congrArg Prod.fst h.1

/-- `groupPairs` collects a run of one tag followed by pairs starting with
a different tag. -/
theorem groupPairs_run (t : Nat) (ds : List Bytes)
    (rest : List (Nat × Bytes)) (h : ds ≠ [])
    (hr : ∀ p ps, rest = p :: ps → p.1 ≠ t) :
    groupPairs ((ds.map fun d => (t, d)) ++ rest) =
      (t, ds) :: groupPairs rest := by
  induction ds with
  | nil => exact absurd rfl h
  | cons d ds ih =>
    cases ds with
    | nil =>
      rw [show (List.map (fun d => (t, d)) [d] ++ rest) = (t, d) :: rest
        from by simp]
      cases hrest : groupPairs rest with
      | nil => simp [groupPairs, hrest]
      | cons q gs =>
        obtain ⟨p, ps, hrps, hptag⟩ := groupPairs_head_tag rest q gs hrest
        obtain ⟨t2, ds2⟩ := q
        have hne' : ¬ t = t2 := fun he => hr p ps hrps (hptag.trans he.symm)
        simp [groupPairs, hrest, hne']
    | cons d2 ds2 =>
      have ihr := ih (by simp)
      rw [show (List.map (fun d => (t, d)) (d :: d2 :: ds2) ++ rest) =
        (t, d) :: (List.map (fun d => (t, d)) (d2 :: ds2) ++ rest)
        from by simp]
      rw [show groupPairs ((t, d) ::
          (List.map (fun d => (t, d)) (d2 :: ds2) ++ rest)) =
        (match groupPairs (List.map (fun d => (t, d)) (d2 :: ds2) ++ rest) with
        | [] => [(t, [d])]
        | (t2, ds) :: gs => if t = t2 then (t, d :: ds) :: gs
          else (t, [d]) :: (t2, ds) :: gs) from rfl]
      rw [ihr]
      simp

/-- Saving flattens the field map in key order and reading groups adjacent
equal tags back: with per-tag occurrence lists nonempty and adjacent tags
distinct, the round trip is the identity. -/
theorem groupPairs_flattenFields :
    ∀ fs : List (Nat × List Bytes),
      (∀ e ∈ fs, e.2 ≠ []) →
      List.Chain' (fun a b => a.1 ≠ b.1) fs →
      groupPairs (flattenFields fs) = fs := by
  intro fs
  induction fs with
  | nil => intro _ _; rfl
  | cons e rest ih =>
    intro hne hch
    obtain ⟨t, ds⟩ := e
    simp only [flattenFields, List.flatMap_cons]
    rw [show (List.map (fun d => ((t, ds).1, d)) (t, ds).2) =
      List.map (fun d => (t, d)) ds from rfl]
    rw [groupPairs_run t ds (rest.flatMap fun e => e.2.map fun d => (e.1, d))
      (hne (t, ds) (by simp)) ?hrtag]
    · rw [show (rest.flatMap fun e => e.2.map fun d => (e.1, d)) =
        flattenFields rest from rfl]
      rw [ih (fun e he => hne e (List.mem_cons_of_mem _ he)) hch.tail]
    case hrtag =>
      intro p ps hps hpt
      cases rest with
      | nil => simp at hps
      | cons e2 r2 =>
        obtain ⟨t2, ds2⟩ := e2
        have hne2 : ds2 ≠ [] := hne (t2, ds2) (by simp)
        cases ds2 with
        | nil => exact hne2 rfl
        | cons d2 ds2' =>
          simp only [List.flatMap_cons, List.map_cons, List.cons_append] at hps
          have hhead : (t2, d2) = p := by
            have hh := congrArg (fun l => l.head?) hps
            simpa using hh
          have ht2 : p.1 = t2 := (congrArg Prod.fst hhead).symm
          exact (List.chain'_cons.mp hch).1 (hpt.symm.trans ht2)

end Pyisis

namespace Pyisis

/-- `getD` below the kept length commutes with `take`. -/
theorem getD_take_lt (l : Bytes) (n k : Nat) (h : k < n) :
    (l.take n).getD k 0 = l.getD k 0 := by
  simp [List.getD_eq_getElem?_getD, List.getElem?_take_of_lt h]

/-- `u16At` on a long-enough prefix. -/
theorem u16At_take (l : Bytes) (n k : Nat) (h : k + 1 < n) :
    u16At (l.take n) k = u16At l k := by
  unfold u16At
  rw [getD_take_lt l n k (by omega), getD_take_lt l n (k + 1) h]

/-- `u32At` on a long-enough prefix. -/
theorem u32At_take (l : Bytes) (n k : Nat) (h : k + 3 < n) :
    u32At (l.take n) k = u32At l k := by
  unfold u32At
  rw [getD_take_lt l n k (by omega), getD_take_lt l n (k + 1) (by omega),
    getD_take_lt l n (k + 2) (by omega), getD_take_lt l n (k + 3) h]

/-- `i32At` on a long-enough prefix. -/
theorem i32At_take (l : Bytes) (n k : Nat) (h : k + 3 < n) :
    i32At (l.take n) k = i32At l k := by
  unfold i32At
  rw [u32At_take l n k h]

/-- Parsing a serialised record written to the store recovers every leader
field and the grouped field list: the core of the save/read round trip. -/
theorem parseRecord_recordBytes (f : Store) (pos : Int) (mfn mfbwb mfbwp : Int)
    (fields : List (Nat × Bytes))
    (hmfn : 0 ≤ mfn ∧ mfn < 2147483648)
    (hbwb : 0 ≤ mfbwb ∧ mfbwb < 2147483648)
    (hbwp : 0 ≤ mfbwp ∧ mfbwp < 65536)
    (hlen : 20 + 6 * fields.length + totalDataLen fields < 65536)
    (htags : ∀ e ∈ fields, e.1 < 65536) :
    parseRecord (writeBytes f pos (recordBytes mfn
        (20 + 6 * (fields.length : Int) + (totalDataLen fields : Int))
        mfbwb mfbwp (20 + 6 * (fields.length : Int)) (fields.length : Int)
        fields)) pos =
      .ok { mfn := mfn,
            mfrl := 20 + 6 * fields.length + totalDataLen fields,
            mfbwb := mfbwb, mfbwp := mfbwp.toNat,
            base := 20 + 6 * fields.length, nvf := fields.length,
            status := 0, fields := groupPairs fields } := by
  have hRlen := recordBytes_length mfn
    (20 + 6 * (fields.length : Int) + (totalDataLen fields : Int))
    mfbwb mfbwp (20 + 6 * (fields.length : Int)) (fields.length : Int) fields
  have hld := recordBytes_leader mfn
    (20 + 6 * (fields.length : Int) + (totalDataLen fields : Int))
    mfbwb mfbwp (20 + 6 * (fields.length : Int)) (fields.length : Int) fields
    hmfn (by constructor <;> [positivity; (push_cast; omega)]) hbwb hbwp
    (by constructor <;> [positivity; (push_cast; omega)])
    (by constructor <;> [positivity; (push_cast; omega)])
  have hlead : readBytes (writeBytes f pos (recordBytes mfn
      (20 + 6 * (fields.length : Int) + (totalDataLen fields : Int))
      mfbwb mfbwp (20 + 6 * (fields.length : Int)) (fields.length : Int)
      fields)) pos 20 = (recordBytes mfn
      (20 + 6 * (fields.length : Int) + (totalDataLen fields : Int))
      mfbwb mfbwp (20 + 6 * (fields.length : Int)) (fields.length : Int)
      fields).take 20 :=
    readBytes_writeBytes_prefix f pos _ 20 (by rw [hRlen]; omega)
  have hmfrlN : (20 + 6 * (fields.length : Int) +
      (totalDataLen fields : Int)).toNat =
      20 + 6 * fields.length + totalDataLen fields := by omega
  have hbaseN : (20 + 6 * (fields.length : Int)).toNat =
      20 + 6 * fields.length := by omega
  have hnvfN : ((fields.length : Int)).toNat = fields.length := by omega
  simp only [parseRecord, hlead]
  rw [u16At_take _ _ _ (by omega), u16At_take _ _ _ (by omega),
    u16At_take _ _ _ (by omega), u16At_take _ _ _ (by omega),
    u16At_take _ _ _ (by omega), i32At_take _ _ _ (by omega),
    i32At_take _ _ _ (by omega)]
  rw [hld.2.1, hld.2.2.2.1, hld.2.2.2.2.1, hld.2.2.2.2.2.1,
    hld.2.2.2.2.2.2, hld.1, hld.2.2.1]
  rw [hmfrlN, hbaseN, hnvfN]
  rw [if_pos (show (20 + 6 * fields.length ≠ 0 ∧
    20 + 6 * fields.length = 20 + 6 * fields.length) from by omega)]
  rw [show 20 + 6 * fields.length + totalDataLen fields - 20 =
    6 * fields.length + totalDataLen fields from by omega]
  have hseg := readBytes_writeBytes_segment f pos (recordBytes mfn
      (20 + 6 * (fields.length : Int) + (totalDataLen fields : Int))
      mfbwb mfbwp (20 + 6 * (fields.length : Int)) (fields.length : Int)
      fields) 20 (6 * fields.length + totalDataLen fields)
    (by rw [hRlen]; omega)
  simp only [Nat.cast_ofNat] at hseg
  rw [hseg]
  have hdrop : (recordBytes mfn
      (20 + 6 * (fields.length : Int) + (totalDataLen fields : Int))
      mfbwb mfbwp (20 + 6 * (fields.length : Int)) (fields.length : Int)
      fields).drop 20 = dirBytes fields 0 ++ fields.flatMap fun e => e.2 := by
    simp [recordBytes, packI, packH]
  rw [hdrop]
  rw [show (dirBytes fields 0 ++ fields.flatMap fun e => e.2).take
      (6 * fields.length + totalDataLen fields) =
      dirBytes fields 0 ++ fields.flatMap fun e => e.2 from
    List.take_of_length_le (by
      simp [dirBytes_length, totalDataLen, Function.comp_def])]
  rw [show (dirBytes fields 0 ++ fields.flatMap fun e => e.2).take
      (6 * fields.length) = dirBytes fields 0 from by
    rw [← dirBytes_length fields 0]
    exact List.take_left _ _]
  rw [show (dirBytes fields 0 ++ fields.flatMap fun e => e.2).drop
      (6 * fields.length) = fields.flatMap fun e => e.2 from by
    rw [← dirBytes_length fields 0]
    exact List.drop_left _ _]
  have hpp := parsePairs_dirBytes fields 0 [] rfl (by omega) htags
  rw [List.nil_append] at hpp
  rw [hpp]

end Pyisis

namespace Pyisis

/-- Binding an `ok` value is application. -/
theorem except_bind_ok {α β : Type} (a : α) (f : α → Except String β) :
    (do let r ← (Except.ok a : Except String α); f r) = f a := rfl

/-- The control-header write at offset 0 does not disturb a record parsed
at or beyond offset 64. -/
theorem parseRecord_writeControl (g : Store) (stx : MFState) (pos : Int)
    (h : 64 ≤ pos) :
    parseRecord (writeBytes g 0 (ctrlBytes stx)) pos = parseRecord g pos := by
  apply parseRecord_congr
  · apply readBytes_writeBytes_below
    rw [ctrlBytes_length]
    omega
  · intro n
    apply readBytes_writeBytes_below
    rw [ctrlBytes_length]
    omega

/-- Fetching straight after the unconditional tail of `save` returns the
record just written: leader fields as passed to the tail, status `ACTIVE`,
and exactly the saved field map. -/
theorem saveTail_fetch (st : MFState) (rec : MemRecord) (mfn : Int)
    (nf mf : Bool) (bwb bwp pos0 : Int)
    (h64 : 64 ≤ splitAdvance "<HHH" pos0)
    (hmfn : 0 ≤ mfn ∧ mfn < 2147483648)
    (hbwb : 0 ≤ bwb ∧ bwb < 2147483648)
    (hbwp : 0 ≤ bwp ∧ bwp < 65536)
    (hlen : 20 + 6 * (flattenFields rec.fields).length +
      totalDataLen (flattenFields rec.fields) < 65536)
    (htags : ∀ e ∈ flattenFields rec.fields, e.1 < 65536)
    (hne : ∀ e ∈ rec.fields, e.2 ≠ [])
    (hch : List.Chain' (fun a b => a.1 ≠ b.1) rec.fields) :
    fetchRecord (saveTail st rec mfn nf mf bwb bwp pos0).st mfn =
      .ok (some
        { mfn := mfn,
          mfrl := 20 + 6 * (flattenFields rec.fields).length +
            totalDataLen (flattenFields rec.fields),
          mfbwb := bwb, mfbwp := bwp.toNat,
          base := 20 + 6 * (flattenFields rec.fields).length,
          nvf := (flattenFields rec.fields).length,
          status := 0, fields := rec.fields }) := by
  have hrw : (splitAdvance "<HHH" pos0).ediv 512 * 512 +
      (splitAdvance "<HHH" pos0).emod 512 = splitAdvance "<HHH" pos0 := by
    rw [int_ediv_eq, int_emod_eq]
    omega
  simp only [saveTail, fetchRecord, getRecordOffset, xrfUpdate,
    writeControl, except_bind_ok]
  norm_num
  rw [hrw, except_bind_ok,
    if_pos (Or.inl (rfl : ("active" : String) = "active"))]
  rw [parseRecord_writeControl _ _ _ (by omega)]
  rw [parseRecord_recordBytes _ _ _ _ _ _ hmfn hbwb hbwp hlen htags]
  rw [groupPairs_flattenFields rec.fields hne hch]
  rfl

end Pyisis

namespace Pyisis

/-! ## C1 — save/read round trip -/

set_option maxHeartbeats 2000000 in
/-- C1: saving a valid record (nonempty occurrence lists, adjacent tags
distinct, tags below 2^16, encoded length below 2^16) with
`MasterRecord.save` and reading it back by its MFN through
`MasterFile.__getitem__` / `MasterRecord.read` yields a record with exactly
the saved field map: the same tag set, the same per-tag occurrence data,
in the same order.  The in-range hypotheses on the assigned `mfn` and back
pointers and the 64-byte floor on the write position express that the
32/16-bit leader fields and the control block are not overflowed. -/
theorem saveRecord_fetch_roundtrip (st : MFState) (rec : MemRecord)
    (resetFlags : Bool) (out : SaveOut)
    (hsave : saveRecord st rec resetFlags = .ok out)
    (h64 : 64 ≤ out.wpos)
    (hmfn : 0 ≤ out.mrec.mfn ∧ out.mrec.mfn < 2147483648)
    (hbwb : 0 ≤ out.mrec.mfbwb ∧ out.mrec.mfbwb < 2147483648)
    (hbwp : 0 ≤ out.mrec.mfbwp ∧ out.mrec.mfbwp < 65536)
    (hlen : 20 + 6 * (flattenFields rec.fields).length +
      totalDataLen (flattenFields rec.fields) < 65536)
    (htags : ∀ e ∈ flattenFields rec.fields, e.1 < 65536)
    (hne : ∀ e ∈ rec.fields, e.2 ≠ [])
    (hch : List.Chain' (fun a b => a.1 ≠ b.1) rec.fields) :
    ∃ r : ReadRec, fetchRecord out.st out.mrec.mfn = .ok (some r) ∧
      r.fields = rec.fields ∧ r.mfn = out.mrec.mfn ∧ r.status = 0 := by
  have hdec : ∃ st' mfn' nf' mf' bwb' bwp' pos',
      out = saveTail st' rec mfn' nf' mf' bwb' bwp' pos' := by
    simp only [saveRecord, getRecordOffset] at hsave
    split_ifs at hsave
    all_goals try simp only [except_bind_ok] at hsave
    all_goals
      first
        | exact ⟨_, _, _, _, _, _, _, (Except.ok.inj hsave).symm⟩
        | exact Except.noConfusion hsave
        | (split_ifs at hsave
           all_goals
             first
               | exact ⟨_, _, _, _, _, _, _, (Except.ok.inj hsave).symm⟩
               | exact Except.noConfusion hsave)
  obtain ⟨st', mfn', nf', mf', bwb', bwp', pos', rfl⟩ := hdec
  exact ⟨_, saveTail_fetch st' rec mfn' nf' mf' bwb' bwp' pos'
    h64 hmfn hbwb hbwp hlen htags hne hch, rfl, rfl, rfl⟩

set_option maxHeartbeats 2000000 in
/-- Witness for C1: one save of the demonstration record on a fresh
database writes it at offset 64 with MFN 1, and reading MFN 1 back returns
exactly the saved fields. -/
theorem saveRecord_fetch_roundtrip_witness :
    ∃ r : ReadRec, fetchRecord demoSaveOut.st demoSaveOut.mrec.mfn =
        .ok (some r) ∧
      r.fields = c4Rec.fields ∧ r.mfn = demoSaveOut.mrec.mfn ∧
      r.status = 0 :=
  saveRecord_fetch_roundtrip newMasterFile c4Rec false demoSaveOut rfl
    (by decide) (by decide) (by decide) (by decide) (by decide)
    (by decide) (by decide) (by simp [c4Rec])

end Pyisis
